import Mathlib

/-!
Verification of the traffic-sign catalogue compilers of this repository:
the tagging-preset generator (preset-formatter.py) and the MapCSS style
generator (style-formatter.py).  The Python sources are shallowly embedded
below: every definition is translated from the source file and line it
names in its doc comment.  String manipulation is modelled on `List Char`
with structural recursion so that all definitions evaluate inside the
kernel.
-/

namespace Josm

/-- Python whitespace class `\s` restricted to ASCII, as used by
`str.strip`, `str.split` and the `re` module on this ASCII data. -/
def isPyWs (c : Char) : Bool :=
  c = ' ' || c = '\t' || c = '\n' || c = '\r' || c = '\x0b' || c = '\x0c'

/-- Python `str.strip()` on the character list: drop leading and trailing
whitespace (preset-formatter.py line 234). -/
def stripChars (cs : List Char) : List Char :=
  ((cs.dropWhile isPyWs).reverse.dropWhile isPyWs).reverse

/-- Python `str.strip()` at string level. -/
def pyStrip (s : String) : String := ⟨stripChars s.data⟩

/-- Python `str.replace("/", "")`: remove every slash
(preset-formatter.py line 234). -/
def removeSlash (s : String) : String := ⟨s.data.filter (fun c => c ≠ '/')⟩

/-- Python `str.split("=")` on a character list: split on every `=`,
keeping empty segments.  The result is always nonempty. -/
def splitEqAux : List Char → List Char → List (List Char)
  | [], acc => [acc.reverse]
  | c :: rest, acc =>
      if c = '=' then acc.reverse :: splitEqAux rest []
      else splitEqAux rest (c :: acc)

/-- Python `t.split("=")` at string level. -/
def splitEq (t : String) : List String := (splitEqAux t.data []).map (⟨·⟩)

/-- `tag.split("=")[0]`: the key of a tag template
(preset-formatter.py line 174). -/
def keyOf (t : String) : String := (splitEq t).headD ""

/-- `t.split("=")[1]` — `none` models the `IndexError` Python raises when
the separator is missing (preset-formatter.py lines 183 and 187). -/
def valOf? (t : String) : Option String := (splitEq t)[1]?

/-- Python `str.capitalize()`: first character upper-cased, the rest
lower-cased (preset-formatter.py lines 181, 190, 195). -/
def pyCapitalize (s : String) : String :=
  match s.data with
  | [] => ""
  | c :: rest => ⟨c.toUpper :: rest.map Char.toLower⟩

/-- One test of `listStartsWith p l`: `p` is a prefix of `l`
(models Python `str.startswith`, preset-formatter.py line 203). -/
def listStartsWith : List Char → List Char → Bool
  | [], _ => true
  | _ :: _, [] => false
  | a :: as, b :: bs => a = b && listStartsWith as bs

/-- Python `v.startswith(p)` at string level. -/
def pyStartsWith (v p : String) : Bool := listStartsWith p.data v.data

/-- Python `str.split()` with no argument: split on whitespace runs and
discard empty pieces (preset-formatter.py line 171). -/
def splitWsAux : List Char → List Char → List String
  | [], acc => if acc.isEmpty then [] else [⟨acc.reverse⟩]
  | c :: rest, acc =>
      if isPyWs c then
        if acc.isEmpty then splitWsAux rest []
        else (⟨acc.reverse⟩ : String) :: splitWsAux rest []
      else splitWsAux rest (c :: acc)

/-- Python `s.split()` at string level. -/
def pySplitWs (s : String) : List String := splitWsAux s.data []

/-- `t.format(id = v)` (preset-formatter.py line 176), restricted to the
template directives occurring in this program: `\x7b\x7b` and `\x7d\x7d`
escapes and the `\x7bid\x7d` placeholder.  Any other replacement field or
stray brace yields `none`, modelling the exception Python raises there
(those exceptions are not `IndexError` on this data, hence not caught by
the handler at line 206). -/
def formatIdAux (v : List Char) : List Char → Option (List Char)
  | [] => some []
  | '{' :: '{' :: rest => (formatIdAux v rest).map (fun r => '{' :: r)
  | '{' :: 'i' :: 'd' :: '}' :: rest => (formatIdAux v rest).map (fun r => v ++ r)
  | '{' :: _ => none
  | '}' :: '}' :: rest => (formatIdAux v rest).map (fun r => '}' :: r)
  | '}' :: _ => none
  | c :: rest => (formatIdAux v rest).map (fun r => c :: r)

/-- `t.format(id = v)` at string level. -/
def formatId (t v : String) : Option String := (formatIdAux v.data t.data).map (⟨·⟩)

/-- `\w` of the `re` module, ASCII range. -/
def isWordChar (c : Char) : Bool := c.isAlphanum || c = '_'

/-- Try to match the regex `\x7bnosave:(\w+)\x7d` at the head of the list;
on success return the captured name and the remainder after the match
(preset-formatter.py line 194). -/
def tryNosave : List Char → Option (String × List Char)
  | '{' :: 'n' :: 'o' :: 's' :: 'a' :: 'v' :: 'e' :: ':' :: rest =>
      let w := rest.takeWhile isWordChar
      if w.isEmpty then none
      else
        match rest.dropWhile isWordChar with
        | '}' :: r2 => some (⟨w⟩, r2)
        | _ => none
  | _ => none

/-- `re.findall` scan for `\x7bnosave:(\w+)\x7d`: left to right,
non-overlapping; on a failed attempt the scan advances one character.
Fuelled by the input length, which bounds the number of steps. -/
def nosaveScan : Nat → List Char → List String
  | 0, _ => []
  | _ + 1, [] => []
  | n + 1, c :: rest =>
      match tryNosave (c :: rest) with
      | some (name, remaining) => name :: nosaveScan n remaining
      | none => nosaveScan n rest

/-- `re.findall(r"\x7bnosave:(\w+)\x7d", value)`
(preset-formatter.py line 194). -/
def nosaveKeys (value : String) : List String := nosaveScan value.data.length value.data

/-- `"\x7b" in value` (preset-formatter.py lines 193 and 199). -/
def hasBrace (value : String) : Bool := value.data.any (fun c => c = '{')

/-- `COUNTRY_PREFIX` (preset-formatter.py line 34). -/
def COUNTRY_PREFIX : String := "IT:"

/-- One synthesized editor field, as appended to the XML item element by
the `tags` function (preset-formatter.py lines 179-205).  `combo` keeps
its alternative values as a list; the XML serialization joins them with
commas.  `fixed` records whether the value was emitted as
`value_template` (it still contained a brace) or as `value`, plus the
`append_with` and `append_regex_search` attributes. -/
inductive Field where
  | combo (text key : String) (values : List String)
  | text (text key : String)
  | fixed (key value : String) (isTemplate : Bool) (appendWith appendRegexSearch : String)
deriving Repr, DecidableEq

/-- The tag key a field is bound to. -/
def Field.keyOfField : Field → String
  | .combo _ k _ => k
  | .text _ k => k
  | .fixed k _ _ _ _ => k

/-- How a run of the `tags` function can abort.  `malformed id group` is
the caught `IndexError` path (preset-formatter.py lines 206-208): the sign
id and the offending formatted group are printed and the process exits
before any document is written.  `formatErr` models an exception escaping
from `str.format` (not an `IndexError` on this data), which also kills the
run but without the report. -/
inductive TagsErr where
  | malformed (id : String) (group : List String)
  | formatErr
deriving Repr, DecidableEq

/-- `[t.format(id = COUNTRY_PREFIX + id_) for t in g]`
(preset-formatter.py line 176): format every member, first failure
aborts. -/
def formatAll (v : String) : List String → Option (List String)
  | [] => some []
  | t :: rest =>
      match formatId t v, formatAll v rest with
      | some ft, some frest => some (ft :: frest)
      | _, _ => none

/-- `[t.split("=")[1] for t in gtags]` (preset-formatter.py line 183):
all right-hand sides, `none` on the first member lacking `=`. -/
def valsOf : List String → Option (List String)
  | [] => some []
  | t :: rest =>
      match valOf? t, valsOf rest with
      | some vt, some vrest => some (vt :: vrest)
      | _, _ => none

/-- Contiguous grouping of the tag list by key —
`itertools.groupby(tags, lambda tag: tag.split("=")[0])`
(preset-formatter.py line 174).  Adjacent tags sharing a key form one
group; a key recurring non-contiguously starts a new group. -/
def groupRuns : List String → List (List String)
  | [] => []
  | t :: rest =>
      match groupRuns rest with
      | [] => [[t]]
      | g :: gs =>
          if keyOf t = keyOf (g.headD "") then (t :: g) :: gs
          else [t] :: g :: gs

/-- The body of the `for key, g in itertools.groupby(...)` loop of the
`tags` function (preset-formatter.py lines 174-208) for one group `g`:

- format every member with the country-prefixed id;
- more than one member: emit one `combo` whose values are the right-hand
  sides of all members;
- exactly one member: take its right-hand side; value `*` emits a free
  `text` field; otherwise, when the value still holds a brace, first emit
  one `text` field per `nosave` placeholder, then emit the `key` element
  with `append_with` `;` (or `,` when the key is `traffic_sign` and the
  value starts with `IT:M`) and `append_regex_search` `^IT:`;
- a member without `=` raises `IndexError`, caught at line 206: the id and
  the formatted group are reported and the run exits. -/
def processGroup (id_ : String) (g : List String) : Except TagsErr (List Field) :=
  let key := keyOf (g.headD "")
  match formatAll (COUNTRY_PREFIX ++ id_) g with
  | none => .error .formatErr
  | some gtags =>
    if 1 < gtags.length then
      match valsOf gtags with
      | none => .error (.malformed id_ gtags)
      | some vals => .ok [.combo (pyCapitalize key) key vals]
    else
      match gtags with
      | [] => .error (.malformed id_ [])
      | t0 :: _ =>
        match valOf? t0 with
        | none => .error (.malformed id_ gtags)
        | some value =>
          if value = "*" then .ok [.text (pyCapitalize key) key]
          else
            let nosaves :=
              if hasBrace value then
                (nosaveKeys value).map
                  (fun k => Field.text (pyCapitalize k) ("nosave:" ++ k))
              else []
            let aw :=
              if key = "traffic_sign" && pyStartsWith value (COUNTRY_PREFIX ++ "M")
              then "," else ";"
            .ok (nosaves ++
              [Field.fixed key value (hasBrace value) aw ("^" ++ COUNTRY_PREFIX)])

/-- The group loop of the `tags` function: process groups in order,
concatenating the emitted fields; the first error aborts the run. -/
def runGroups (id_ : String) : List (List String) → Except TagsErr (List Field)
  | [] => .ok []
  | g :: gs =>
      match processGroup id_ g with
      | .error e => .error e
      | .ok fs =>
          match runGroups id_ gs with
          | .error e => .error e
          | .ok rest => .ok (fs ++ rest)

/-- The `tags` function (preset-formatter.py lines 164-208) on an already
split tag list: the sequence of fields it appends to the item element, or
the error aborting the run. -/
def tagsRun (id_ : String) (ts : List String) : Except TagsErr (List Field) :=
  runGroups id_ (groupRuns ts)

/-- The `tags` function on a string tag source (the override table holds
strings): `tags_.split()` first (preset-formatter.py line 171). -/
def tagsRunStr (id_ s : String) : Except TagsErr (List Field) :=
  tagsRun id_ (pySplitWs s)

/-- The group loop threading the element `e` the way the Python function
mutates it: fields are appended to the children already present
(preset-formatter.py lines 179, 190, 195, 205). -/
def runGroupsAcc (id_ : String) (acc : List Field) :
    List (List String) → Except TagsErr (List Field)
  | [] => .ok acc
  | g :: gs =>
      match processGroup id_ g with
      | .error e => .error e
      | .ok fs => runGroupsAcc id_ (acc ++ fs) gs

/-- The observable effect of calling `tags(e, id_, ...)` on an element
that already has children `e`: the final child list, or the aborting
error. -/
def tagsAppend (e : List Field) (id_ : String) (ts : List String) :
    Except TagsErr (List Field) :=
  runGroupsAcc id_ e (groupRuns ts)

end Josm

namespace Josm

/-- The `TAGS` override table (preset-formatter.py lines 49-161): a static
map from sign id to a whitespace-separated string of tag templates, which
fully replaces the scraped tags of that record.  Transcribed entry by
entry from the source dict, in source order. -/
def TAGS : List (String × String) := [
  ("II.1", "traffic_sign=\x7bid\x7d hazard=damaged_road"),
  ("II.2", "traffic_sign=\x7bid\x7d hazard=bump"),
  ("II.3", "traffic_sign=\x7bid\x7d hazard=dip"),
  ("II.4", "traffic_sign=\x7bid\x7d hazard=turn turn=right"),
  ("II.5", "traffic_sign=\x7bid\x7d hazard=turn turn=left"),
  ("II.6", "traffic_sign=\x7bid\x7d hazard=turns turns=right"),
  ("II.7", "traffic_sign=\x7bid\x7d hazard=turns turns=left"),
  ("II.8", "traffic_sign=\x7bid\x7d hazard=level_crossing crossing:barrier=yes"),
  ("II.9", "traffic_sign=\x7bid\x7d hazard=level_crossing crossing:barrier=no"),
  ("II.12", "traffic_sign=\x7bid\x7d hazard=level_crossing crossing:barrier=no"),
  ("II.13", "traffic_sign=\x7bid\x7d hazard=crossing"),
  ("II.14", "traffic_sign=\x7bid\x7d hazard=cyclists"),
  ("II.15", "traffic_sign=\x7bid\x7d[\x7b\x7bincline\x7d\x7d] hazard=steep_incline steep_incline=down incline=*"),
  ("II.16", "traffic_sign=\x7bid\x7d[\x7b\x7bincline\x7d\x7d] hazard=steep_incline steep_incline=up incline=*"),
  ("II.17", "traffic_sign=\x7bid\x7d hazard=road_narrows"),
  ("II.18", "traffic_sign=\x7bid\x7d hazard=road_narrows"),
  ("II.19", "traffic_sign=\x7bid\x7d hazard=road_narrows"),
  ("II.20", "traffic_sign=\x7bid\x7d hazard=swing_bridge"),
  ("II.21", "traffic_sign=\x7bid\x7d hazard=dangerous_shoulder"),
  ("II.22", "traffic_sign=\x7bid\x7d hazard=slippery"),
  ("II.23", "traffic_sign=\x7bid\x7d hazard=children"),
  ("II.24", "traffic_sign=\x7bid\x7d hazard=animal_crossing"),
  ("II.25", "traffic_sign=\x7bid\x7d hazard=animal_crossing"),
  ("II.26", "traffic_sign=\x7bid\x7d oneway=no"),
  ("II.27", "traffic_sign=\x7bid\x7d hazard=roundabout"),
  ("II.28", "traffic_sign=\x7bid\x7d hazard=quay"),
  ("II.29", "traffic_sign=\x7bid\x7d hazard=loose_gravel"),
  ("II.30a", "traffic_sign=\x7bid\x7d hazard=falling_rocks"),
  ("II.30b", "traffic_sign=\x7bid\x7d hazard=falling_rocks"),
  ("II.31a", "traffic_sign=\x7bid\x7d hazard=traffic_signals"),
  ("II.31b", "traffic_sign=\x7bid\x7d hazard=traffic_signals"),
  ("II.32", "traffic_sign=\x7bid\x7d hazard=low_flying_aircraft"),
  ("II.33", "traffic_sign=\x7bid\x7d hazard=side_winds"),
  ("II.34", "traffic_sign=\x7bid\x7d hazard=wildfires"),
  ("II.35", "traffic_sign=\x7bid\x7d hazard=*"),
  ("II.36", "traffic_sign=\x7bid\x7d"),
  ("II.37", "traffic_sign=\x7bid\x7d"),
  ("II.38", "traffic_sign=\x7bid\x7d[\x7b\x7bdistance\x7d\x7d]"),
  ("II.39", "traffic_sign=\x7bid\x7d[\x7b\x7bdistance\x7d\x7d]"),
  ("II.40", "traffic_sign=\x7bid\x7d priority_road=implicit"),
  ("II.41", "traffic_sign=\x7bid\x7d priority=no"),
  ("II.42", "traffic_sign=\x7bid\x7d priority_road=implicit"),
  ("II.43a", "traffic_sign=\x7bid\x7d hazard=dangerous_junction"),
  ("II.43b", "traffic_sign=\x7bid\x7d hazard=dangerous_junction dangerous_junction=right"),
  ("II.43c", "traffic_sign=\x7bid\x7d hazard=dangerous_junction dangerous_junction=left"),
  ("II.43d", "traffic_sign=\x7bid\x7d hazard=dangerous_junction dangerous_junction=right"),
  ("II.43e", "traffic_sign=\x7bid\x7d hazard=dangerous_junction dangerous_junction=left"),
  ("II.44", "traffic_sign=\x7bid\x7d priority_road=*"),
  ("II.45", "traffic_sign=\x7bid\x7d priority=yes"),
  ("II.46", "traffic_sign=\x7bid\x7d vehicle=no"),
  ("II.47", "traffic_sign=\x7bid\x7d oneway=yes"),
  ("II.48", "traffic_sign=\x7bid\x7d overtaking=no"),
  ("II.49", "traffic_sign=\x7bid\x7d[\x7b\x7bmindistance\x7d\x7d] mindistance=*"),
  ("II.50", "traffic_sign=\x7bid\x7d[\x7b\x7bmaxspeed\x7d\x7d] maxspeed=*"),
  ("II.52", "traffic_sign=\x7bid\x7d overtaking:hgv=no"),
  ("II.53", "traffic_sign=\x7bid\x7d carriage=no"),
  ("II.54", "traffic_sign=\x7bid\x7d foot=no"),
  ("II.55", "traffic_sign=\x7bid\x7d bicycle=no"),
  ("II.56", "traffic_sign=\x7bid\x7d motorcycle=no"),
  ("II.57", "traffic_sign=\x7bid\x7d handcart=no"),
  ("II.58", "traffic_sign=\x7bid\x7d motorcar=no"),
  ("II.59", "traffic_sign=\x7bid\x7d bus=no tourist_bus=no"),
  ("II.60a", "traffic_sign=\x7bid\x7d hgv=no"),
  ("II.60b", "traffic_sign=\x7bid\x7d[\x7b\x7bmaxweightrating:hgv\x7d\x7d] maxweightrating:hgv=*"),
  ("II.61", "traffic_sign=\x7bid\x7d trailer=no"),
  ("II.62", "traffic_sign=\x7bid\x7d agricultural=no"),
  ("II.63", "traffic_sign=\x7bid\x7d hazmat=no"),
  ("II.64b", "traffic_sign=\x7bid\x7d hazmat:water=no"),
  ("II.65", "traffic_sign=\x7bid\x7d[\x7b\x7bmaxwidth\x7d\x7d] maxwidth=*"),
  ("II.66", "traffic_sign=\x7bid\x7d[\x7b\x7bmaxheight\x7d\x7d] maxheight=*"),
  ("II.67", "traffic_sign=\x7bid\x7d[\x7b\x7bmaxlength\x7d\x7d] maxlength=*"),
  ("II.68", "traffic_sign=\x7bid\x7d[\x7b\x7bmaxweight\x7d\x7d] maxweight=*"),
  ("II.69", "traffic_sign=\x7bid\x7d[\x7b\x7bmaxaxleload\x7d\x7d] maxaxleload=*"),
  ("II.71", "traffic_sign=\x7bid\x7d[\x7b\x7bnosave:maxspeed\x7d\x7d] maxspeed=implicit"),
  ("II.72", "traffic_sign=\x7bid\x7d overtaking=implicit"),
  ("II.73", "traffic_sign=\x7bid\x7d overtaking:hgv=implicit"),
  ("II.74", "traffic_sign=\x7bid\x7d parking=no_parking"),
  ("II.75", "traffic_sign=\x7bid\x7d parking=no_stopping"),
  ("II.76", "traffic_sign=\x7bid\x7d amenity=parking"),
  ("II.77", "traffic_sign=\x7bid\x7d[\x7b\x7bdistance\x7d\x7d]"),
  ("II.85", "traffic_sign=\x7bid\x7d[\x7b\x7bminspeed\x7d\x7d] minspeed=*"),
  ("II.86", "traffic_sign=\x7bid\x7d[\x7b\x7bminspeed\x7d\x7d] minspeed=implicit"),
  ("II.87", "traffic_sign=\x7bid\x7d snow_chains=required"),
  ("II.88", "traffic_sign=\x7bid\x7d foot=designated"),
  ("II.89", "traffic_sign=\x7bid\x7d foot=implicit"),
  ("II.90", "traffic_sign=\x7bid\x7d bicycle=designated"),
  ("II.91", "traffic_sign=\x7bid\x7d bicycle=implicit"),
  ("II.92a", "traffic_sign=\x7bid\x7d foot=designated bicycle=designated segregated=yes"),
  ("II.92b", "traffic_sign=\x7bid\x7d foot=designated bicycle=designated segregated=no"),
  ("II.93a", "traffic_sign=\x7bid\x7d foot=implicit bicycle=implicit segregated=yes"),
  ("II.93b", "traffic_sign=\x7bid\x7d foot=implicit bicycle=implicit segregated=no"),
  ("II.94", "traffic_sign=\x7bid\x7d horse=designated"),
  ("II.95", "traffic_sign=\x7bid\x7d horse=implicit"),
  ("II.273", "traffic_sign=\x7bid\x7d name=*"),
  ("II.274", "traffic_sign=\x7bid\x7d city_limit=end name=*"),
  ("II.312", "traffic_sign=\x7bid\x7d[\x7b\x7bmaxspeed:advisory\x7d\x7d] maxspeed:advisory=*"),
  ("II.313", "traffic_sign=\x7bid\x7d[\x7b\x7bmaxspeed:advisory\x7d\x7d] maxspeed:advisory=*"),
  ("II.323a", "traffic_sign=\x7bid\x7d[\x7b\x7bmaxspeed\x7d\x7d] maxspeed=\x7b\x7bmaxspeed\x7d\x7d zone:maxspeed=IT:\x7b\x7bmaxspeed\x7d\x7d"),
  ("II.323b", "traffic_sign=\x7bid\x7d[\x7b\x7bnosave:maxspeed\x7d\x7d] maxspeed=implicit"),
  ("MII.1", "traffic_sign=\x7bid\x7d[\x7b\x7bnosave:distance\x7d\x7d]"),
  ("MII.2", "traffic_sign=\x7bid\x7d[\x7b\x7bnosave:extent\x7d\x7d]"),
  ("MII.3", "traffic_sign=\x7bid\x7d[\x7b\x7bnosave:period\x7d\x7d]"),
  ("MII.6e", "traffic_sign=\x7bid\x7d hazard=flood_prone"),
  ("MII.6f", "traffic_sign=\x7bid\x7d hazard=queues_likely"),
  ("MII.6h", "traffic_sign=\x7bid\x7d hazard=ice")
]

/-- `TAGS.get(id_, default)` — Python dict lookup over the table above. -/
def tagsLookup (id_ : String) : Option String :=
  (TAGS.find? (fun p => p.1 = id_)).map (fun p => p.2)

/-- `THUMBS` (preset-formatter.py lines 43-46): ids whose icon represents
their whole section group. -/
def THUMBS : List String :=
  ["II.35", "II.37", "II.50", "II.88", "II.272", "II.275", "II.285", "II.294",
   "II.303", "II.356", "MII.7", "MII.8b"]

end Josm

namespace Josm

/-- One catalogue record as read from the scraper JSON.  Optional JSON
keys are `Option`; `names` is the label-to-text map; `width` and `height`
are the declared icon dimensions (modelled as rationals; the generators
only divide them). -/
structure SignRecord where
  sectionLabel : Option String := none
  id : Option String := none
  urls : List String := []
  filename : Option String := none
  names : List (String × String) := []
  tags : List String := []
  wiki : Option String := none
  width : Option ℚ := none
  height : Option ℚ := none
deriving Repr, DecidableEq

/-- The id under which the preset pipeline files a record:
`item["id"].strip().replace("/", "")` (preset-formatter.py line 234). -/
def presetKey (s : String) : String := removeSlash (pyStrip s)

/-- The id under which the style pipeline files a record: the raw
`item["id"]` (style-formatter.py line 40). -/
def styleKey (s : String) : String := s

/-- The tag source handed to the resolver for one record
(preset-formatter.py lines 254-255): the override table entry for the
sanitized id when present (a string, split on whitespace), else the
scraped tags with `traffic_sign=\x7bid\x7d` appended. -/
def sourceFor (id_ : String) (scraped : List String) : List String :=
  match tagsLookup id_ with
  | some s => pySplitWs s
  | none => scraped ++ ["traffic_sign=\x7bid\x7d"]

/-- One emitted preset item: only the parts the verified properties talk
about (XML `name` and `icon` attributes and the resolved fields). -/
structure PresetItem where
  name : String
  icon : String
  fields : List Field
deriving Repr, DecidableEq

/-- The body of the per-record loop of the preset pipeline
(preset-formatter.py lines 224-258): skip the record when `id` is absent,
when `urls` is empty, or when no cached `filename` is present (the raw-URL
fallback at lines 236-237 is commented out in the source); otherwise
resolve the sanitized id against the override table or the scraped tags
and emit the item with the cached filename as its icon. -/
def buildItem (r : SignRecord) : Except TagsErr (Option PresetItem) :=
  match r.id with
  | none => .ok none
  | some rid =>
    if r.urls.isEmpty then .ok none
    else
      match r.filename with
      | none => .ok none
      | some url =>
        let id_ := presetKey rid
        (tagsRun id_ (sourceFor id_ r.tags)).map
          (fun fs => some { name := id_, icon := url, fields := fs })

/-- The preset item loop over the whole catalogue: items in input order,
records skipped by the eligibility tests dropped, the first resolver
error aborting the run with no document emitted. -/
def buildItems : List SignRecord → Except TagsErr (List PresetItem)
  | [] => .ok []
  | r :: rest =>
      match buildItem r with
      | .error e => .error e
      | .ok none => buildItems rest
      | .ok (some it) => (buildItems rest).map (fun l => it :: l)

/-- Match `(.*?)\x5c)$` after the opening parenthesis: the second capture
group of the section regex.  `$` forces the closing parenthesis to be the
final character, so the group is everything up to it; `.` does not match a
newline (preset-formatter.py line 218). -/
def matchGroup2 (cs : List Char) : Option (List Char) :=
  match cs.getLast? with
  | some c =>
      if c = ')' then
        let a := cs.dropLast
        if a.any (fun x => x = '\n') then none else some a
      else none
  | none => none

/-- Match `\s+\(` at the head of the list, then the second group: the
whitespace run is maximal and the parenthesis must follow it directly
(the only backtracking candidate, since a parenthesis is not whitespace).
Returns the second capture group on success. -/
def matchSpaceParen (cs : List Char) : Option (List Char) :=
  let m := cs.takeWhile isPyWs
  if m.isEmpty then none
  else
    match cs.dropWhile isPyWs with
    | c :: rest => if c = '(' then matchGroup2 rest else none
    | [] => none

/-- Leftmost-shortest scan of `re.match(r"^(.*?)\s+\((.*?)\)$", section)`
(preset-formatter.py line 218): try the tail pattern at each position,
growing the lazy first group one character at a time; the first group
cannot absorb a newline. -/
def scanLabel : List Char → List Char → Option (String × String)
  | _, [] => none
  | acc, c :: cs =>
      match matchSpaceParen (c :: cs) with
      | some a => some (⟨acc.reverse⟩, ⟨a⟩)
      | none => if c = '\n' then none else scanLabel (c :: acc) cs

/-- The section-label match: the two capture groups when the regex
matches, `none` otherwise. -/
def sectionSplit (s : String) : Option (String × String) := scanLabel [] s.data

/-- The attributes put on a section group element (preset-formatter.py
lines 218-222): on a match, `it.name` (the primary, first group) and
`name` (the alternate, second group); otherwise the whole label as
`it.name` with no `name` attribute. -/
def sectionAttrs (label : String) : String × Option String :=
  match sectionSplit label with
  | some (p, a) => (p, some a)
  | none => (label, none)

end Josm

namespace Josm

/-- Python dict assignment `d[k] = v` on an association list: overwrite
the existing binding or append a new one (insertion order preserved, as
in a Python dict). -/
def dictInsert (d : List (String × α)) (k : String) (v : α) : List (String × α) :=
  if d.any (fun p => p.1 = k) then
    d.map (fun p => if p.1 = k then (k, v) else p)
  else d ++ [(k, v)]

/-- Python dict membership-based lookup on the association list. -/
def dictGet? (d : List (String × α)) (k : String) : Option α :=
  (d.find? (fun p => p.1 = k)).map (fun p => p.2)

/-- Rational division with Python defaults:
`item.get("height", 1.0) / item.get("width", 1.0)`
(style-formatter.py line 45). -/
def aspectOf (r : SignRecord) : ℚ := (r.height.getD 1) / (r.width.getD 1)

/-- The body of the lookup-table loop of the style pipeline
(style-formatter.py lines 35-45): skip records without `id` or with empty
`urls`; only when a cached `filename` is present (and truthy) store
`svgs/<filename>` under the RAW id in `id2url` and the height/width ratio
in `id2aspect`. -/
def tablesStep (tabs : List (String × String) × List (String × ℚ))
    (r : SignRecord) : List (String × String) × List (String × ℚ) :=
  match r.id with
  | none => tabs
  | some id_ =>
    if r.urls.isEmpty then tabs
    else
      match r.filename with
      | some f =>
          if f = "" then tabs
          else (dictInsert tabs.1 (styleKey id_) ("svgs/" ++ f),
                dictInsert tabs.2 (styleKey id_) (aspectOf r))
      | none => tabs

/-- The synthetic template-icon substitutions forced into `id2url` after
the loop (style-formatter.py lines 48-53). -/
def urlSubstitutions : List (String × String) :=
  [("II.50", "maxspeed-empty.svg"),
   ("II.71", "maxspeed-end-empty.svg"),
   ("II.323a", "zone-maxspeed-empty.svg"),
   ("MII.1", "distance-empty.svg"),
   ("MII.2", "length-empty.svg"),
   ("MII.3", "distance-empty.svg")]

/-- The two global lookup tables of the style document, `id2url` and
`id2aspect` (style-formatter.py lines 33-53). -/
def styleTables (items : List SignRecord) :
    List (String × String) × List (String × ℚ) :=
  let t := items.foldl tablesStep ([], [])
  (urlSubstitutions.foldl (fun d p => dictInsert d p.1 p.2) t.1, t.2)

/-- Modelled from the spec: the `map_get(map, key, default)` eval function
of the consuming MapCSS toolchain (repository code not under src/) —
"resolved via documented defaults" — returns the value stored for the key
and the third argument when the key is absent. -/
def map_get (d : List (String × α)) (k : String) (dflt : α) : α :=
  (dictGet? d k).getD dflt

/-- Modelled from the spec: the `URL_query_encode(key, value)` eval
function of the consuming toolchain appends the rendered text as a
query-style percent-encoded parameter; only its output being some string
determined by key and value matters to the verified properties, so it is
kept abstract as a tagged concatenation. -/
def URLQueryEncode (k v : String) : String := k ++ "=" ++ v

/-- The `icon-image` declaration of a slot rule (style-formatter.py
lines 173-174):
`concat(map_get(urls, id, "unknown"), "?", URL_query_encode("text", texts))`. -/
def iconImage (urls : List (String × String)) (signId texts : String) : String :=
  map_get urls signId "unknown" ++ "?" ++ URLQueryEncode "text" texts

/-- The `real-height` declaration of a slot rule (style-formatter.py
line 175): `setting("icon_size") * map_get(aspects, id, 1.0)`. -/
def realHeight (iconSize : ℚ) (aspects : List (String × ℚ)) (signId : String) : ℚ :=
  iconSize * map_get aspects signId 1

/-- The `yoffsetprop` cascade emitted for the stack slots of one layer
(style-formatter.py lines 179-188), with the property-reference semantics
of the consuming evaluator modelled from the spec: an unqualified
`prop(x)` reads the property of the CURRENT slot rule, a qualified
`prop(x, layerN)` reads it from slot `N`.  Slot 0 declares
`yoffsetprop: prop(real-height) * 0.5`; slot `idx > 0` declares
`yoffsetprop: prop(yoffsetprop, layer(idx-1)) + prop(real-height)`, where
`prop(real-height)` is the height declared two lines above in the same
rule, i.e. the height of slot `idx` itself. -/
def yoffsetprop (rh : ℕ → ℚ) : ℕ → ℚ
  | 0 => rh 0 * (1 / 2)
  | i + 1 => yoffsetprop rh i + rh (i + 1)

/-- The offset recurrence as the spec words it (for comparison with the
emitted one): slot 0 as above, but `offset(idx) = offset(idx-1) +
realHeight(idx-1)`, adding the height of the PREVIOUS slot. -/
def yoffsetClaimed (rh : ℕ → ℚ) : ℕ → ℚ
  | 0 => rh 0 * (1 / 2)
  | i + 1 => yoffsetClaimed rh i + rh i

/-- The `icon-offset-y` declaration of a slot rule with `idx > 0`
(style-formatter.py line 187): `prop(yoffsetprop) - prop(real-height) * 0.5`. -/
def iconOffsetY (rh : ℕ → ℚ) (i : ℕ) : ℚ :=
  yoffsetprop rh i - rh i * (1 / 2)

/-- The `icon-transform` declaration string chosen for a layer
(style-formatter.py lines 156-159): the precomputed rotation property for
`noward` and `forward`, the same wrapped in an additional half-turn
rotation for `backward`. -/
def transformFor (layer : String) : String :=
  if layer = "backward" then
    "transform(rotate(0.5turn), prop(transformprop, default))"
  else "prop(transformprop, default)"

/-- The three direction layers, in emission order
(style-formatter.py line 156). -/
def layers : List String := ["noward", "forward", "backward"]

/-- The stack slots `range(3)` (style-formatter.py line 162). -/
def slots : List ℕ := [0, 1, 2]

/-- One emitted slot rule: the layer, the slot index and its
`icon-transform` declaration (the offset and lookup declarations are the
semantic functions above, shared by all slots). -/
structure SlotRule where
  layer : String
  idx : ℕ
  iconTransform : String
deriving Repr, DecidableEq

/-- The nested layer/slot generation loop (style-formatter.py
lines 156-189): three layers times three slots, in that nested order,
independent of the lookup-table contents. -/
def layerSlotRules : List SlotRule :=
  layers.flatMap (fun l => slots.map (fun i => ⟨l, i, transformFor l⟩))

end Josm

namespace Josm

/-- Shape of the fields emitted for one contiguous key group `g` with key
`keyG`: a group of more than one member yields exactly one combo carrying
one value per member; a group of one member yields exactly one text field
or exactly one fixed field bound to the key, the latter possibly preceded
by text fields bound to `nosave:`-prefixed names. -/
def GroupShape (keyG : String) (g : List String) (p : List Field) : Prop :=
  (1 < g.length →
    ∃ vs, p = [Field.combo (pyCapitalize keyG) keyG vs] ∧ vs.length = g.length) ∧
  (g.length = 1 →
    (∃ t, p = [Field.text t keyG]) ∨
    (∃ pre v tpl aw ars, p = pre ++ [Field.fixed keyG v tpl aw ars] ∧
      ∀ f ∈ pre, ∃ t nk, f = Field.text t ("nosave:" ++ nk)))

/-- The aspect table of the worked example in the spec: three sign codes
with aspect ratios 1.0, 0.5 and 2.0. -/
def exampleAspects : List (String × ℚ) := [("A", 1), ("B", 1 / 2), ("C", 2)]

/-- The per-slot real heights of the worked example: icon_size 32 times
the aspect of the code stacked at each slot. -/
def exampleRh (i : ℕ) : ℚ :=
  realHeight 32 exampleAspects (["A", "B", "C"].getD i "")

/-- A record with an id and a nonempty url list but no locally cached
asset filename. -/
def noFileRecord : SignRecord :=
  { id := some "II.999b", urls := ["https://wiki.example/a%20b.svg"] }

/-- A record with an id, a nonempty url list and a cached filename. -/
def fileRecord : SignRecord :=
  { id := some "X.1", urls := ["https://wiki.example/x.svg"],
    filename := some "X.1.svg" }

end Josm

namespace Josm

theorem splitEqAux_length (cs : List Char) :
    ∀ acc, (splitEqAux cs acc).length = cs.count '=' + 1 := by
  induction cs with
  | nil => intro acc; simp [splitEqAux]
  | cons c rest ih =>
    intro acc
    by_cases hc : c = '='
    · subst hc; simp [splitEqAux, ih, List.count_cons]
    · simp [splitEqAux, hc, ih, List.count_cons]

theorem valOf?_eq_none_iff (t : String) : valOf? t = none ↔ '=' ∉ t.data := by
  have hlen : (splitEq t).length = t.data.count '=' + 1 := by
    simp [splitEq, splitEqAux_length]
  constructor
  · intro h hmem
    have h2 : (splitEq t).length ≤ 1 := by
      simpa using List.getElem?_eq_none_iff.mp h
    have : 1 ≤ t.data.count '=' := List.one_le_count_iff.mpr hmem
    omega
  · intro h
    have : t.data.count '=' = 0 := List.count_eq_zero.mpr h
    apply List.getElem?_eq_none
    omega

theorem valOf?_isSome_iff (t : String) : (valOf? t).isSome ↔ '=' ∈ t.data := by
  rw [← Decidable.not_not (p := '=' ∈ t.data), ← valOf?_eq_none_iff]
  cases h : valOf? t <;> simp [h]

end Josm

namespace Josm

theorem formatAll_length {v : String} :
    ∀ {g r : List String}, formatAll v g = some r → r.length = g.length := by
  intro g
  induction g with
  | nil => intro r h; simp [formatAll] at h; simp [← h]
  | cons t rest ih =>
    intro r h
    simp only [formatAll] at h
    cases hf : formatId t v with
    | none => rw [hf] at h; simp at h
    | some ft =>
      rw [hf] at h
      cases ha : formatAll v rest with
      | none => rw [ha] at h; simp at h
      | some frest =>
        rw [ha] at h
        simp at h
        simp [← h, ih ha]

theorem formatAll_mem {v : String} :
    ∀ {g r : List String}, formatAll v g = some r →
      ∀ t ∈ g, ∃ ft, formatId t v = some ft ∧ ft ∈ r := by
  intro g
  induction g with
  | nil => intro r _ t ht; simp at ht
  | cons t0 rest ih =>
    intro r h t ht
    simp only [formatAll] at h
    cases hf : formatId t0 v with
    | none => rw [hf] at h; simp at h
    | some ft0 =>
      rw [hf] at h
      cases ha : formatAll v rest with
      | none => rw [ha] at h; simp at h
      | some frest =>
        rw [ha] at h
        simp at h
        rcases List.mem_cons.mp ht with h1 | h2
        · exact ⟨ft0, by rw [h1]; exact hf, by simp [← h]⟩
        · obtain ⟨ft, hft, hmem⟩ := ih ha t h2
          exact ⟨ft, hft, by simp [← h, hmem]⟩

theorem formatAll_mem_rev {v : String} :
    ∀ {g r : List String}, formatAll v g = some r →
      ∀ ft ∈ r, ∃ t ∈ g, formatId t v = some ft := by
  intro g
  induction g with
  | nil =>
    intro r h ft hft
    simp only [formatAll, Option.some.injEq] at h
    rw [← h] at hft
    simp at hft
  | cons t0 rest ih =>
    intro r h ft hft
    simp only [formatAll] at h
    cases hf : formatId t0 v with
    | none => rw [hf] at h; simp at h
    | some ft0 =>
      rw [hf] at h
      cases ha : formatAll v rest with
      | none => rw [ha] at h; simp at h
      | some frest =>
        rw [ha] at h
        simp at h
        rw [← h] at hft
        rcases List.mem_cons.mp hft with h1 | h2
        · exact ⟨t0, by simp, by rw [← h1] at hf; exact hf⟩
        · obtain ⟨t, htg, hft2⟩ := ih ha ft h2
          exact ⟨t, by simp [htg], hft2⟩

theorem formatAll_some_of {v : String} :
    ∀ {g : List String}, (∀ t ∈ g, (formatId t v).isSome) →
      ∃ r, formatAll v g = some r := by
  intro g
  induction g with
  | nil => intro _; exact ⟨[], rfl⟩
  | cons t0 rest ih =>
    intro h
    obtain ⟨ft0, hf⟩ := Option.isSome_iff_exists.mp (h t0 (by simp))
    obtain ⟨frest, ha⟩ := ih (fun t ht => h t (by simp [ht]))
    exact ⟨ft0 :: frest, by simp only [formatAll]; rw [hf, ha]⟩

theorem valsOf_length :
    ∀ {l r : List String}, valsOf l = some r → r.length = l.length := by
  intro l
  induction l with
  | nil => intro r h; simp [valsOf] at h; simp [← h]
  | cons t rest ih =>
    intro r h
    simp only [valsOf] at h
    cases hv : valOf? t with
    | none => rw [hv] at h; simp at h
    | some vt =>
      rw [hv] at h
      cases ha : valsOf rest with
      | none => rw [ha] at h; simp at h
      | some vrest =>
        rw [ha] at h
        simp at h
        simp [← h, ih ha]

theorem valsOf_none_of_mem :
    ∀ {l : List String}, ∀ t ∈ l, valOf? t = none → valsOf l = none := by
  intro l
  induction l with
  | nil => intro t ht; simp at ht
  | cons t0 rest ih =>
    intro t ht hv
    simp only [valsOf]
    rcases List.mem_cons.mp ht with h1 | h2
    · rw [← h1, hv]
    · rw [ih t h2 hv]
      cases valOf? t0 <;> simp
  
theorem valsOf_some_all :
    ∀ {l r : List String}, valsOf l = some r → ∀ t ∈ l, (valOf? t).isSome := by
  intro l
  induction l with
  | nil => intro r _ t ht; simp at ht
  | cons t0 rest ih =>
    intro r h t ht
    simp only [valsOf] at h
    cases hv : valOf? t0 with
    | none => rw [hv] at h; simp at h
    | some vt =>
      rw [hv] at h
      cases ha : valsOf rest with
      | none => rw [ha] at h; simp at h
      | some vrest =>
        rcases List.mem_cons.mp ht with h1 | h2
        · rw [h1, hv]; rfl
        · exact ih ha t h2

theorem valsOf_some_of :
    ∀ {l : List String}, (∀ t ∈ l, (valOf? t).isSome) →
      ∃ r, valsOf l = some r := by
  intro l
  induction l with
  | nil => intro _; exact ⟨[], rfl⟩
  | cons t0 rest ih =>
    intro h
    obtain ⟨vt, hv⟩ := Option.isSome_iff_exists.mp (h t0 (by simp))
    obtain ⟨vrest, ha⟩ := ih (fun t ht => h t (by simp [ht]))
    exact ⟨vt :: vrest, by simp only [valsOf]; rw [hv, ha]⟩

theorem groupRuns_cons (t : String) (rest : List String) :
    groupRuns (t :: rest) =
      match groupRuns rest with
      | [] => [[t]]
      | g :: gs =>
          if keyOf t = keyOf (g.headD "") then (t :: g) :: gs
          else [t] :: g :: gs := rfl

theorem groupRuns_cons_nil (t : String) (rest : List String)
    (h : groupRuns rest = []) : groupRuns (t :: rest) = [[t]] := by
  rw [groupRuns_cons, h]

theorem groupRuns_cons_cons (t : String) (rest g0 : List String)
    (gs : List (List String)) (h : groupRuns rest = g0 :: gs) :
    groupRuns (t :: rest) =
      if keyOf t = keyOf (g0.headD "") then (t :: g0) :: gs
      else [t] :: g0 :: gs := by
  rw [groupRuns_cons, h]

theorem groupRuns_eq_nil (ts : List String) (h : groupRuns ts = []) : ts = [] := by
  cases ts with
  | nil => rfl
  | cons t rest =>
    exfalso
    cases hgr : groupRuns rest with
    | nil => rw [groupRuns_cons_nil t rest hgr] at h; simp at h
    | cons g0 gs =>
      rw [groupRuns_cons_cons t rest g0 gs hgr] at h
      by_cases hk : keyOf t = keyOf (g0.headD "")
      · rw [if_pos hk] at h; simp at h
      · rw [if_neg hk] at h; simp at h

theorem groupRuns_flatten : ∀ ts : List String, (groupRuns ts).flatten = ts := by
  intro ts
  induction ts with
  | nil => rfl
  | cons t rest ih =>
    cases hg : groupRuns rest with
    | nil =>
      have hrest : rest = [] := groupRuns_eq_nil rest hg
      rw [groupRuns_cons_nil t rest hg, hrest]
      rfl
    | cons g gs =>
      rw [hg] at ih
      rw [groupRuns_cons_cons t rest g gs hg]
      by_cases hk : keyOf t = keyOf (g.headD "")
      · simp only [if_pos hk, List.flatten_cons] at ih ⊢
        simp only [List.cons_append, ih]
      · simp only [if_neg hk, List.flatten_cons] at ih ⊢
        simp only [List.flatten_cons, List.singleton_append, ih]

theorem groupRuns_ne_nil : ∀ ts : List String, ∀ g ∈ groupRuns ts, g ≠ [] := by
  intro ts
  induction ts with
  | nil => intro g hg; simp [groupRuns] at hg
  | cons t rest ih =>
    cases hgr : groupRuns rest with
    | nil =>
      rw [groupRuns_cons_nil t rest hgr]
      intro g hg
      simp only [List.mem_singleton] at hg
      simp [hg]
    | cons g0 gs =>
      rw [hgr] at ih
      rw [groupRuns_cons_cons t rest g0 gs hgr]
      intro g hg
      by_cases hk : keyOf t = keyOf (g0.headD "")
      · rw [if_pos hk] at hg
        rcases List.mem_cons.mp hg with h1 | h2
        · simp [h1]
        · exact ih g (List.mem_cons_of_mem _ h2)
      · rw [if_neg hk] at hg
        rcases List.mem_cons.mp hg with h1 | h2
        · simp [h1]
        · exact ih g h2

end Josm

namespace Josm

theorem processGroup_fixed_attrs (id_ : String) (g : List String) (p : List Field)
    (h : processGroup id_ g = .ok p) :
    ∀ k v tpl aw ars, Field.fixed k v tpl aw ars ∈ p →
      ars = "^" ++ COUNTRY_PREFIX ∧
      aw = if k = "traffic_sign" && pyStartsWith v (COUNTRY_PREFIX ++ "M")
           then "," else ";" := by
  simp only [processGroup] at h
  split at h
  · exact absurd h (by simp)
  · rename_i gtags hfa
    split at h
    · rename_i hgt
      split at h
      · exact absurd h (by simp)
      · rename_i vals hv
        simp only [Except.ok.injEq] at h
        intro k v tpl aw ars hmem
        rw [← h] at hmem
        simp at hmem
    · rename_i hgt
      split at h
      · exact absurd h (by simp)
      · rename_i t0 tl
        split at h
        · exact absurd h (by simp)
        · rename_i value hval
          split at h
          · simp only [Except.ok.injEq] at h
            intro k v tpl aw ars hmem
            rw [← h] at hmem
            simp at hmem
          · simp only [Except.ok.injEq] at h
            intro k v tpl aw ars hmem
            rw [← h] at hmem
            rcases List.mem_append.mp hmem with h1 | h2
            · by_cases hb : hasBrace value = true
              · rw [if_pos hb] at h1
                obtain ⟨x, _, hx⟩ := List.mem_map.mp h1
                exact absurd hx (by simp)
              · rw [if_neg hb] at h1
                simp at h1
            · simp only [List.mem_singleton, Field.fixed.injEq] at h2
              obtain ⟨hk, hv2, _, haw, hars⟩ := h2
              subst hk hv2
              exact ⟨hars, haw⟩

theorem processGroup_ok_good (id_ : String) (g : List String) (p : List Field)
    (h : processGroup id_ g = .ok p) :
    ∀ t ∈ g, ∃ ft, formatId t (COUNTRY_PREFIX ++ id_) = some ft ∧ '=' ∈ ft.data := by
  simp only [processGroup] at h
  split at h
  · exact absurd h (by simp)
  · rename_i gtags hfa
    have hlen : gtags.length = g.length := formatAll_length hfa
    intro t ht
    obtain ⟨ft, hft, hmem⟩ := formatAll_mem hfa t ht
    refine ⟨ft, hft, ?_⟩
    rw [← valOf?_isSome_iff]
    split at h
    · rename_i hgt
      split at h
      · exact absurd h (by simp)
      · rename_i vals hv
        exact valsOf_some_all hv ft hmem
    · rename_i hgt
      split at h
      · exact absurd h (by simp)
      · rename_i t0 tl
        split at h
        · exact absurd h (by simp)
        · rename_i value hval
          have htl : tl = [] := by
            simp only [List.length_cons] at hgt
            cases tl with
            | nil => rfl
            | cons a b => simp at hgt
          rw [htl] at hmem
          simp only [List.mem_singleton] at hmem
          rw [hmem, hval]
          rfl

end Josm

namespace Josm

theorem processGroup_ok_of_good (id_ : String) (g : List String)
    (hne : g ≠ [])
    (hgood : ∀ t ∈ g, ∃ ft, formatId t (COUNTRY_PREFIX ++ id_) = some ft ∧ '=' ∈ ft.data) :
    ∃ p, processGroup id_ g = .ok p := by
  obtain ⟨gtags, hfa⟩ := formatAll_some_of
    (fun t ht => by obtain ⟨ft, hft, _⟩ := hgood t ht; rw [hft]; rfl)
  have hall : ∀ ft ∈ gtags, (valOf? ft).isSome := by
    intro ft hmem
    obtain ⟨t, ht, hft⟩ := formatAll_mem_rev hfa ft hmem
    obtain ⟨ft2, hft2, heq⟩ := hgood t ht
    rw [hft] at hft2
    rw [valOf?_isSome_iff, Option.some.inj hft2]
    exact heq
  simp only [processGroup, hfa]
  by_cases hgt : 1 < gtags.length
  · obtain ⟨vals, hv⟩ := valsOf_some_of hall
    rw [if_pos hgt, hv]
    exact ⟨_, rfl⟩
  · rw [if_neg hgt]
    cases hg : gtags with
    | nil =>
      exfalso
      have : gtags.length = g.length := formatAll_length hfa
      rw [hg] at this
      exact hne (List.length_eq_zero.mp this.symm)
    | cons t0 tl =>
      have hv0 : (valOf? t0).isSome := hall t0 (by rw [hg]; simp)
      obtain ⟨value, hval⟩ := Option.isSome_iff_exists.mp hv0
      dsimp only
      rw [hval]
      dsimp only
      by_cases hstar : value = "*"
      · rw [if_pos hstar]
        exact ⟨_, rfl⟩
      · rw [if_neg hstar]
        exact ⟨_, rfl⟩

theorem processGroup_malformed_of_bad (id_ : String) (g : List String)
    (hfmt : ∀ t ∈ g, (formatId t (COUNTRY_PREFIX ++ id_)).isSome)
    (hbad : ∃ t ∈ g, ∃ ft,
      formatId t (COUNTRY_PREFIX ++ id_) = some ft ∧ '=' ∉ ft.data) :
    ∃ gt, processGroup id_ g = .error (.malformed id_ gt) ∧
      ∃ ftm ∈ gt, '=' ∉ ftm.data := by
  obtain ⟨gtags, hfa⟩ := formatAll_some_of hfmt
  obtain ⟨t, ht, ft, hft, hne⟩ := hbad
  obtain ⟨ft2, hft2, hmem⟩ := formatAll_mem hfa t ht
  rw [hft] at hft2
  have hfteq : ft = ft2 := Option.some.inj hft2
  subst hfteq
  have hvnone : valOf? ft = none := (valOf?_eq_none_iff ft).mpr hne
  refine ⟨gtags, ?_, ft, hmem, hne⟩
  simp only [processGroup, hfa]
  by_cases hgt : 1 < gtags.length
  · rw [if_pos hgt, valsOf_none_of_mem ft hmem hvnone]
  · rw [if_neg hgt]
    cases hg : gtags with
    | nil => simp [hg] at hmem
    | cons t0 tl =>
      have htl : tl = [] := by
        rw [hg] at hgt
        simp only [List.length_cons] at hgt
        cases tl with
        | nil => rfl
        | cons a b => simp at hgt
      subst htl
      rw [hg] at hmem
      simp only [List.mem_singleton] at hmem
      dsimp only
      rw [← hmem, hvnone]

end Josm

namespace Josm

theorem runGroupsAcc_eq (id_ : String) :
    ∀ (gs : List (List String)) (acc : List Field),
      runGroupsAcc id_ acc gs = (runGroups id_ gs).map (fun fs => acc ++ fs) := by
  intro gs
  induction gs with
  | nil => intro acc; simp [runGroupsAcc, runGroups, Except.map]
  | cons g gs ih =>
    intro acc
    simp only [runGroupsAcc, runGroups]
    cases hp : processGroup id_ g with
    | error e => rfl
    | ok fs =>
      dsimp only
      rw [ih (acc ++ fs)]
      cases hr : runGroups id_ gs with
      | error e => rfl
      | ok rest => simp [Except.map]

theorem runGroups_ok_parts (id_ : String) :
    ∀ (gs : List (List String)) (fs : List Field),
      runGroups id_ gs = .ok fs →
      ∃ parts : List (List Field),
        List.Forall₂ (fun g p => processGroup id_ g = .ok p) gs parts ∧
        fs = parts.flatten := by
  intro gs
  induction gs with
  | nil =>
    intro fs h
    simp only [runGroups, Except.ok.injEq] at h
    exact ⟨[], List.Forall₂.nil, h.symm⟩
  | cons g gs ih =>
    intro fs h
    simp only [runGroups] at h
    cases hp : processGroup id_ g with
    | error e => rw [hp] at h; simp at h
    | ok p =>
      rw [hp] at h
      dsimp only at h
      cases hr : runGroups id_ gs with
      | error e => rw [hr] at h; simp at h
      | ok rest =>
        rw [hr] at h
        dsimp only at h
        simp only [Except.ok.injEq] at h
        obtain ⟨parts, hf2, hfl⟩ := ih rest hr
        exact ⟨p :: parts, List.Forall₂.cons hp hf2, by simp [← h, hfl]⟩

theorem runGroups_ok_good (id_ : String) :
    ∀ (gs : List (List String)) (fs : List Field),
      runGroups id_ gs = .ok fs →
      ∀ t ∈ gs.flatten, ∃ ft,
        formatId t (COUNTRY_PREFIX ++ id_) = some ft ∧ '=' ∈ ft.data := by
  intro gs
  induction gs with
  | nil => intro fs _ t ht; simp at ht
  | cons g gs ih =>
    intro fs h t ht
    simp only [runGroups] at h
    cases hp : processGroup id_ g with
    | error e => rw [hp] at h; simp at h
    | ok p =>
      rw [hp] at h
      cases hr : runGroups id_ gs with
      | error e => rw [hr] at h; simp at h
      | ok rest =>
        simp only [List.flatten_cons, List.mem_append] at ht
        rcases ht with h1 | h2
        · exact processGroup_ok_good id_ g p hp t h1
        · exact ih rest hr t h2

theorem runGroups_malformed (id_ : String) :
    ∀ gs : List (List String), (∀ g ∈ gs, g ≠ []) →
      (∀ t ∈ gs.flatten, (formatId t (COUNTRY_PREFIX ++ id_)).isSome) →
      (∃ t ∈ gs.flatten, ∃ ft,
        formatId t (COUNTRY_PREFIX ++ id_) = some ft ∧ '=' ∉ ft.data) →
      ∃ gt, runGroups id_ gs = .error (.malformed id_ gt) ∧
        ∃ ftm ∈ gt, '=' ∉ ftm.data := by
  intro gs
  induction gs with
  | nil =>
    intro _ _ hbad
    obtain ⟨t, ht, _⟩ := hbad
    simp at ht
  | cons g gs ih =>
    intro hne hfmt hbad
    simp only [List.flatten_cons, List.mem_append] at hfmt hbad
    by_cases hg : ∃ t ∈ g, ∃ ft,
        formatId t (COUNTRY_PREFIX ++ id_) = some ft ∧ '=' ∉ ft.data
    · obtain ⟨gt, hpg, hbadm⟩ := processGroup_malformed_of_bad id_ g
        (fun t ht => hfmt t (Or.inl ht)) hg
      refine ⟨gt, ?_, hbadm⟩
      simp only [runGroups, hpg]
    · have hgood : ∀ t ∈ g, ∃ ft,
          formatId t (COUNTRY_PREFIX ++ id_) = some ft ∧ '=' ∈ ft.data := by
        intro t ht
        obtain ⟨ft, hft⟩ := Option.isSome_iff_exists.mp (hfmt t (Or.inl ht))
        refine ⟨ft, hft, ?_⟩
        by_contra hc
        exact hg ⟨t, ht, ft, hft, hc⟩
      obtain ⟨p, hp⟩ := processGroup_ok_of_good id_ g (hne g (by simp)) hgood
      have hbad2 : ∃ t ∈ gs.flatten, ∃ ft,
          formatId t (COUNTRY_PREFIX ++ id_) = some ft ∧ '=' ∉ ft.data := by
        obtain ⟨t, ht, ft, hft, hnein⟩ := hbad
        rcases ht with h1 | h2
        · exact absurd ⟨t, h1, ft, hft, hnein⟩ hg
        · exact ⟨t, h2, ft, hft, hnein⟩
      obtain ⟨gt, hrg, hbadm⟩ := ih
        (fun g2 hg2 => hne g2 (List.mem_cons_of_mem _ hg2))
        (fun t ht => hfmt t (Or.inr ht)) hbad2
      refine ⟨gt, ?_, hbadm⟩
      simp only [runGroups, hp, hrg]

end Josm

namespace Josm

theorem dropWhile_eq_of_length {p : Char → Bool} :
    ∀ cs : List Char, (cs.dropWhile p).length = cs.length → cs.dropWhile p = cs := by
  intro cs
  induction cs with
  | nil => intro _; rfl
  | cons c rest ih =>
    intro h
    by_cases hp : p c
    · exfalso
      rw [List.dropWhile_cons_of_pos hp] at h
      have hle : (rest.dropWhile p).length ≤ rest.length :=
        (List.dropWhile_sublist p).length_le
      simp only [List.length_cons] at h
      omega
    · rw [List.dropWhile_cons_of_neg hp]

theorem mem_dropWhile_of_neg {p : Char → Bool} :
    ∀ cs : List Char, ∀ c, c ∈ cs → p c = false → c ∈ cs.dropWhile p := by
  intro cs
  induction cs with
  | nil => intro c hc _; simp at hc
  | cons c0 rest ih =>
    intro c hc hp
    by_cases hp0 : p c0
    · rw [List.dropWhile_cons_of_pos hp0]
      rcases List.mem_cons.mp hc with h1 | h2
      · rw [h1] at hp; rw [hp] at hp0; simp at hp0
      · exact ih c h2 hp
    · rw [List.dropWhile_cons_of_neg hp0]
      exact hc

theorem stripChars_length_le (cs : List Char) :
    (stripChars cs).length ≤ cs.length := by
  unfold stripChars
  calc ((cs.dropWhile isPyWs).reverse.dropWhile isPyWs).reverse.length
      = ((cs.dropWhile isPyWs).reverse.dropWhile isPyWs).length := by
        rw [List.length_reverse]
    _ ≤ (cs.dropWhile isPyWs).reverse.length := (List.dropWhile_sublist isPyWs).length_le
    _ = (cs.dropWhile isPyWs).length := by rw [List.length_reverse]
    _ ≤ cs.length := (List.dropWhile_sublist isPyWs).length_le

theorem stripChars_eq_of_length (cs : List Char)
    (h : (stripChars cs).length = cs.length) : stripChars cs = cs := by
  unfold stripChars at h ⊢
  rw [List.length_reverse] at h
  have a1 : (cs.dropWhile isPyWs).length ≤ cs.length :=
    (List.dropWhile_sublist isPyWs).length_le
  have a2 : ((cs.dropWhile isPyWs).reverse.dropWhile isPyWs).length
      ≤ (cs.dropWhile isPyWs).reverse.length :=
    (List.dropWhile_sublist isPyWs).length_le
  rw [List.length_reverse] at a2
  have h1 : (cs.dropWhile isPyWs).length = cs.length := by omega
  have hd1 : cs.dropWhile isPyWs = cs := dropWhile_eq_of_length cs h1
  rw [hd1] at h ⊢
  have h2 : (cs.reverse.dropWhile isPyWs).length = cs.reverse.length := by
    rw [List.length_reverse]
    exact h
  rw [dropWhile_eq_of_length cs.reverse h2, List.reverse_reverse]

theorem mem_stripChars (cs : List Char) (c : Char) (hc : c ∈ cs)
    (hp : isPyWs c = false) : c ∈ stripChars cs := by
  unfold stripChars
  rw [List.mem_reverse]
  apply mem_dropWhile_of_neg _ _ _ hp
  rw [List.mem_reverse]
  exact mem_dropWhile_of_neg _ _ hc hp

theorem presetKey_length_lt (s : String)
    (h : '/' ∈ s.data ∨ pyStrip s ≠ s) :
    (presetKey s).data.length < s.data.length := by
  have hfle : ∀ l : List Char, (l.filter (fun c => c ≠ '/')).length ≤ l.length :=
    fun l => List.length_filter_le _ l
  have hdata : (presetKey s).data = (stripChars s.data).filter (fun c => c ≠ '/') := rfl
  rcases h with h | h
  · have hmem : '/' ∈ stripChars s.data := mem_stripChars s.data '/' h rfl
    have : ((stripChars s.data).filter (fun c => c ≠ '/')).length
        < (stripChars s.data).length := by
      apply List.length_filter_lt_length_iff_exists.mpr
      exact ⟨'/', hmem, by simp⟩
    have hsle := stripChars_length_le s.data
    rw [hdata]
    omega
  · have hne : stripChars s.data ≠ s.data := by
      intro hc
      apply h
      unfold pyStrip
      rw [hc]
    have hlt : (stripChars s.data).length < s.data.length := by
      have := stripChars_length_le s.data
      rcases Nat.lt_or_ge (stripChars s.data).length s.data.length with h1 | h1
      · exact h1
      · exact absurd (stripChars_eq_of_length s.data (by omega)) hne
    calc (presetKey s).data.length
        ≤ (stripChars s.data).length := by rw [hdata]; exact hfle _
      _ < s.data.length := hlt

end Josm

namespace Josm

theorem mem_of_getLast? {l : List Char} {x : Char} (h : l.getLast? = some x) :
    x ∈ l := by
  obtain ⟨hne, hx⟩ := List.mem_getLast?_eq_getLast (l := l) (x := x) h
  rw [hx]
  exact List.getLast_mem hne

theorem matchSpaceParen_none_of_no_paren (cs : List Char) (h : '(' ∉ cs) :
    matchSpaceParen cs = none := by
  simp only [matchSpaceParen]
  split
  · rfl
  · split
    · rename_i c rest heq
      have hmem : c ∈ cs.dropWhile isPyWs := by rw [heq]; simp
      have hc : c ≠ '(' := by
        intro hcc
        rw [hcc] at hmem
        exact h ((List.dropWhile_sublist isPyWs).subset hmem)
      rw [if_neg hc]
    · rfl

theorem scanLabel_none (cs : List Char) (h : '(' ∉ cs) :
    ∀ acc, scanLabel acc cs = none := by
  induction cs with
  | nil => intro acc; rfl
  | cons c rest ih =>
    intro acc
    unfold scanLabel
    rw [matchSpaceParen_none_of_no_paren _ h]
    dsimp only
    by_cases hc : c = '\n'
    · rw [if_pos hc]
    · rw [if_neg hc]
      exact ih (fun hm => h (List.mem_cons_of_mem _ hm)) (c :: acc)

theorem matchGroup2_concat (acs : List Char) (h2 : '\n' ∉ acs) :
    matchGroup2 (acs ++ [')']) = some acs := by
  simp only [matchGroup2]
  rw [List.getLast?_concat]
  dsimp only
  rw [if_pos rfl, List.dropLast_concat]
  have hany : (acs.any fun x => x = '\n') = false := by
    rw [List.any_eq_false]
    intro x hx
    simp only [decide_eq_true_eq]
    intro hxx
    rw [hxx] at hx
    exact h2 hx
  rw [hany]
  rfl

theorem matchSpaceParen_sep (acs : List Char) (h2 : '\n' ∉ acs) :
    matchSpaceParen (' ' :: '(' :: (acs ++ [')'])) = some acs := by
  simp only [matchSpaceParen]
  rw [List.takeWhile_cons_of_pos (by decide), List.takeWhile_cons_of_neg (by decide)]
  rw [List.dropWhile_cons_of_pos (by decide), List.dropWhile_cons_of_neg (by decide)]
  simp only [List.isEmpty_cons, Bool.false_eq_true, if_false, if_true]
  exact matchGroup2_concat acs h2

theorem matchSpaceParen_none_inside (pcs acs : List Char)
    (h1 : '(' ∉ pcs) (hne : pcs ≠ [])
    (hlast : ∀ c, pcs.getLast? = some c → isPyWs c = false) :
    matchSpaceParen (pcs ++ ' ' :: '(' :: (acs ++ [')'])) = none := by
  cases hp : pcs with
  | nil => exact absurd hp hne
  | cons c pcs' =>
    subst hp
    by_cases hws : isPyWs c = true
    · have hnotall : (c :: pcs').dropWhile isPyWs ≠ [] := by
        intro hall
        have hallws := List.dropWhile_eq_nil_iff.mp hall
        have hlastq := List.getLast?_eq_getLast_of_ne_nil
          (l := c :: pcs') (by simp)
        have hlastn := hlast _ hlastq
        have hmem : (c :: pcs').getLast (by simp) ∈ c :: pcs' :=
          List.getLast_mem _
        rw [hallws _ hmem] at hlastn
        simp at hlastn
      simp only [matchSpaceParen]
      have htkw : ((c :: pcs' ++ ' ' :: '(' :: (acs ++ [')'])).takeWhile
          isPyWs).isEmpty = false := by
        rw [List.cons_append, List.takeWhile_cons_of_pos hws]
        simp
      rw [htkw]
      simp only [Bool.false_eq_true, if_false]
      rw [List.dropWhile_append]
      have hnotall2 : ((c :: pcs').dropWhile isPyWs).isEmpty = false := by
        cases hd : (c :: pcs').dropWhile isPyWs with
        | nil => exact absurd hd hnotall
        | cons x xs => rfl
      rw [hnotall2]
      simp only [Bool.false_eq_true, if_false]
      cases hd : (c :: pcs').dropWhile isPyWs with
      | nil => exact absurd hd hnotall
      | cons x xs =>
        dsimp only [List.cons_append]
        have hxmem : x ∈ c :: pcs' := by
          apply (List.dropWhile_sublist isPyWs).subset
          rw [hd]
          simp
        have hx : x ≠ '(' := by
          intro hxx
          rw [hxx] at hxmem
          exact h1 hxmem
        rw [if_neg hx]
    · simp only [matchSpaceParen]
      have htkw : ((c :: pcs' ++ ' ' :: '(' :: (acs ++ [')'])).takeWhile
          isPyWs).isEmpty = true := by
        rw [List.cons_append, List.takeWhile_cons_of_neg hws]
        rfl
      rw [htkw]
      simp

end Josm

namespace Josm

theorem scanLabel_through (acs : List Char) (h2 : '\n' ∉ acs) :
    ∀ (pcs acc : List Char), '(' ∉ pcs → '\n' ∉ pcs →
      (∀ c, pcs.getLast? = some c → isPyWs c = false) →
      scanLabel acc (pcs ++ ' ' :: '(' :: (acs ++ [')'])) =
        some (⟨acc.reverse ++ pcs⟩, ⟨acs⟩) := by
  intro pcs
  induction pcs with
  | nil =>
    intro acc _ _ _
    rw [List.nil_append]
    unfold scanLabel
    rw [matchSpaceParen_sep acs h2]
    dsimp only
    simp
  | cons c pcs' ih =>
    intro acc h1 hnl hlast
    rw [List.cons_append]
    unfold scanLabel
    rw [show c :: (pcs' ++ ' ' :: '(' :: (acs ++ [')']))
        = (c :: pcs') ++ ' ' :: '(' :: (acs ++ [')']) from rfl]
    rw [matchSpaceParen_none_inside (c :: pcs') acs h1 (by simp) hlast]
    dsimp only
    have hc : c ≠ '\n' := by
      intro hcc
      rw [hcc] at h1 hnl
      exact hnl (by simp)
    rw [if_neg hc]
    have hih := ih (c :: acc)
      (fun hm => h1 (List.mem_cons_of_mem _ hm))
      (fun hm => hnl (List.mem_cons_of_mem _ hm))
      (fun cc hcc => by
        cases pcs' with
        | nil => simp at hcc
        | cons d ds =>
          apply hlast cc
          rw [List.getLast?_cons_cons]
          exact hcc)
    rw [hih]
    simp

end Josm

namespace Josm

theorem exampleRh_vals :
    exampleRh 0 = 32 ∧ exampleRh 1 = 16 ∧ exampleRh 2 = 64 := by
  have e0 : exampleRh 0 = 32 * 1 := rfl
  have e1 : exampleRh 1 = 32 * (1 / 2) := rfl
  have e2 : exampleRh 2 = 32 * 2 := rfl
  rw [e0, e1, e2]
  norm_num

theorem yoffsetprop_vals :
    yoffsetprop exampleRh 0 = 16 ∧ yoffsetprop exampleRh 1 = 32 ∧
    yoffsetprop exampleRh 2 = 96 := by
  obtain ⟨e0, e1, e2⟩ := exampleRh_vals
  have y0 : yoffsetprop exampleRh 0 = exampleRh 0 * (1 / 2) := rfl
  have y1 : yoffsetprop exampleRh 1 = yoffsetprop exampleRh 0 + exampleRh 1 := rfl
  have y2 : yoffsetprop exampleRh 2 = yoffsetprop exampleRh 1 + exampleRh 2 := rfl
  rw [y2, y1, y0, e0, e1, e2]
  norm_num

theorem yoffsetClaimed_vals :
    yoffsetClaimed exampleRh 1 = 48 ∧ yoffsetClaimed exampleRh 2 = 64 := by
  obtain ⟨e0, e1, e2⟩ := exampleRh_vals
  have y0 : yoffsetClaimed exampleRh 0 = exampleRh 0 * (1 / 2) := rfl
  have y1 : yoffsetClaimed exampleRh 1 = yoffsetClaimed exampleRh 0 + exampleRh 0 := rfl
  have y2 : yoffsetClaimed exampleRh 2 = yoffsetClaimed exampleRh 1 + exampleRh 1 := rfl
  rw [y2, y1, y0, e0, e1]
  norm_num

/-- Claim C1 counterexample: with aspect ratios 1.0, 0.5, 2.0 and
icon_size 32 (real heights 32, 16, 64) the emitted offsets are 16, 32, 96,
not the 16, 48, 64 demanded by the claim: the emitted declaration for a
slot with `idx > 0` adds the height of the CURRENT slot, not the height of
the previous one. -/
theorem C1_counterexample :
    yoffsetprop exampleRh 0 = 16 ∧
    yoffsetprop exampleRh 1 = 32 ∧
    yoffsetprop exampleRh 2 = 96 ∧
    yoffsetClaimed exampleRh 1 = 48 ∧
    yoffsetClaimed exampleRh 2 = 64 ∧
    ¬(yoffsetprop exampleRh 1 = 48 ∧ yoffsetprop exampleRh 2 = 64) := by
  obtain ⟨y0, y1, y2⟩ := yoffsetprop_vals
  obtain ⟨c1, c2⟩ := yoffsetClaimed_vals
  refine ⟨y0, y1, y2, c1, c2, ?_⟩
  rw [y1, y2]
  norm_num

/-- Claim C1 (amended): for every aspect table and slot assignment, the
emitted offset for slot 0 is `realHeight(slot0) * 0.5`, and for slot
`idx > 0` it is `offset(idx-1) + realHeight(idx)` — the height of the
CURRENT slot; with aspect ratios 1.0, 0.5, 2.0 and icon_size 32 the
offsets are 16, 32, 96. -/
theorem C1_theorem (iconSize : ℚ) (aspects : List (String × ℚ))
    (ids : ℕ → String) :
    yoffsetprop (fun j => realHeight iconSize aspects (ids j)) 0
      = realHeight iconSize aspects (ids 0) * (1 / 2) ∧
    (∀ i : ℕ,
      yoffsetprop (fun j => realHeight iconSize aspects (ids j)) (i + 1)
        = yoffsetprop (fun j => realHeight iconSize aspects (ids j)) i
          + realHeight iconSize aspects (ids (i + 1))) ∧
    yoffsetprop exampleRh 0 = 16 ∧
    yoffsetprop exampleRh 1 = 32 ∧
    yoffsetprop exampleRh 2 = 96 :=
  ⟨rfl, fun _ => rfl, yoffsetprop_vals.1, yoffsetprop_vals.2.1,
    yoffsetprop_vals.2.2⟩

/-- Claim C6: a sign code missing from the id-to-URL table resolves to the
literal `unknown` icon, a sign code missing from the aspect table resolves
to aspect 1.0 (real height = icon size), and the layer/slot rule
generation is independent of the tables: all nine rules are always
emitted. -/
theorem C6_theorem (urls : List (String × String)) (aspects : List (String × ℚ))
    (signId texts : String) (iconSize : ℚ)
    (hu : dictGet? urls signId = none) (ha : dictGet? aspects signId = none) :
    iconImage urls signId texts =
      "unknown" ++ "?" ++ URLQueryEncode "text" texts ∧
    realHeight iconSize aspects signId = iconSize ∧
    layerSlotRules.length = 9 := by
  refine ⟨?_, ?_, rfl⟩
  · unfold iconImage map_get
    rw [hu]
    rfl
  · unfold realHeight map_get
    rw [ha]
    simp

/-- Claim C6 witness: the example aspect table has no entry for `II.999`:
a slot referencing it renders the `unknown` icon at real height equal to
the icon size, and generation still emits all nine rules. -/
theorem C6_witness :
    iconImage [("A", "svgs/a.svg")] "II.999" "50" =
      "unknown" ++ "?" ++ URLQueryEncode "text" "50" ∧
    realHeight 32 exampleAspects "II.999" = 32 ∧
    layerSlotRules.length = 9 :=
  C6_theorem [("A", "svgs/a.svg")] exampleAspects "II.999" "50" 32 rfl rfl

/-- Claim C8: the backward layer's icon transform is the forward layer's
transform (the heading-derived rotation property) wrapped in an additional
half-turn rotation, the noward layer applies only the precomputed rotation
property, and every emitted slot rule carries the transform selected for
its layer. -/
theorem C8_theorem :
    transformFor "backward" =
      "transform(rotate(0.5turn), " ++ transformFor "forward" ++ ")" ∧
    transformFor "forward" = "prop(transformprop, default)" ∧
    transformFor "noward" = "prop(transformprop, default)" ∧
    ∀ r ∈ layerSlotRules, r.iconTransform = transformFor r.layer :=
  ⟨by decide, by decide, by decide, by decide⟩

/-- Claim C8 witness: the backward slot-0 rule of the generated rule list
carries the backward transform. -/
theorem C8_witness :
    (SlotRule.mk "backward" 0 (transformFor "backward")).iconTransform
      = transformFor (SlotRule.mk "backward" 0 (transformFor "backward")).layer :=
  C8_theorem.2.2.2 (SlotRule.mk "backward" 0 (transformFor "backward"))
    (by decide)

/-- Claim C10: the preset pipeline keys a record under its id with
surrounding whitespace stripped and every slash removed, while the style
pipeline keys it under the raw id; for an id containing a slash or
surrounding whitespace the two pipelines use different keys for the same
record. -/
theorem C10_theorem (s : String) (h : '/' ∈ s.data ∨ pyStrip s ≠ s) :
    presetKey s ≠ styleKey s ∧ styleKey s = s := by
  refine ⟨?_, rfl⟩
  intro hc
  have hlt := presetKey_length_lt s h
  rw [hc] at hlt
  simp only [styleKey] at hlt
  omega

/-- Claim C10 witness: an id with a slash and surrounding blanks is filed
under different keys by the two pipelines. -/
theorem C10_witness :
    presetKey " II.50/b " ≠ styleKey " II.50/b " ∧
    styleKey " II.50/b " = " II.50/b " :=
  C10_theorem " II.50/b " (Or.inl (by decide))

end Josm

namespace Josm

theorem forall₂_mem_right {R : List String → List Field → Prop} :
    ∀ {gs : List (List String)} {parts : List (List Field)},
      List.Forall₂ R gs parts → ∀ p ∈ parts, ∃ g ∈ gs, R g p := by
  intro gs parts h
  induction h with
  | nil => intro p hp; simp at hp
  | cons hR hrest ih =>
    intro p hp
    rcases List.mem_cons.mp hp with h1 | h2
    · exact ⟨_, by simp, h1 ▸ hR⟩
    · obtain ⟨g, hg, hR2⟩ := ih p h2
      exact ⟨g, List.mem_cons_of_mem _ hg, hR2⟩

theorem processGroup_ok_shape (id_ : String) (g : List String) (p : List Field)
    (h : processGroup id_ g = .ok p) :
    GroupShape (keyOf (g.headD "")) g p := by
  simp only [processGroup] at h
  split at h
  · exact absurd h (by simp)
  · rename_i gtags hfa
    have hlen : gtags.length = g.length := formatAll_length hfa
    split at h
    · rename_i hgt
      split at h
      · exact absurd h (by simp)
      · rename_i vals hv
        simp only [Except.ok.injEq] at h
        constructor
        · intro _
          refine ⟨vals, h.symm, ?_⟩
          rw [valsOf_length hv, hlen]
        · intro h1; omega
    · rename_i hgt
      split at h
      · exact absurd h (by simp)
      · rename_i t0 tl
        split at h
        · exact absurd h (by simp)
        · rename_i value hval
          simp only [List.length_cons] at hlen hgt
          constructor
          · intro h1; omega
          · intro h1
            split at h
            · simp only [Except.ok.injEq] at h
              exact Or.inl ⟨pyCapitalize (keyOf (g.headD "")), h.symm⟩
            · simp only [Except.ok.injEq] at h
              refine Or.inr ⟨_, value, hasBrace value, _, "^" ++ COUNTRY_PREFIX, h.symm, ?_⟩
              intro f hf
              by_cases hb : hasBrace value = true
              · rw [if_pos hb] at hf
                obtain ⟨k, _, hfk⟩ := List.mem_map.mp hf
                exact ⟨pyCapitalize k, k, hfk.symm⟩
              · rw [if_neg hb] at hf
                simp at hf

/-- Claim C2 counterexample: a tag source in which the key `a` occurs in
two non-contiguous runs yields two separate fixed fields bound to `a`, not
one descriptor per distinct key — `itertools.groupby` groups only
contiguous runs. -/
theorem C2_counterexample :
    tagsRun "X" ["a=1", "b=2", "a=3"] =
      .ok [Field.fixed "a" "1" false ";" ("^" ++ COUNTRY_PREFIX),
           Field.fixed "b" "2" false ";" ("^" ++ COUNTRY_PREFIX),
           Field.fixed "a" "3" false ";" ("^" ++ COUNTRY_PREFIX)] ∧
    (List.filter (fun f => Field.keyOfField f = "a")
      [Field.fixed "a" "1" false ";" ("^" ++ COUNTRY_PREFIX),
       Field.fixed "b" "2" false ";" ("^" ++ COUNTRY_PREFIX),
       Field.fixed "a" "3" false ";" ("^" ++ COUNTRY_PREFIX)]).length = 2 :=
  ⟨rfl, by decide⟩

/-- Claim C2 (amended): per CONTIGUOUS run of equal-keyed tags the
resolver emits exactly one descriptor group: a run of size N > 1 yields
exactly one ChoiceField carrying N values; a run of size 1 yields exactly
one TextField or one FixedField bound to the run's key, the FixedField
possibly preceded by TextFields bound to nosave-prefixed names; a key
recurring in non-contiguous runs yields one descriptor per run. -/
theorem C2_theorem (id_ : String) (ts : List String) (fs : List Field)
    (h : tagsRun id_ ts = .ok fs) :
    ∃ parts : List (List Field),
      fs = parts.flatten ∧
      List.Forall₂ (fun g p => GroupShape (keyOf (g.headD "")) g p)
        (groupRuns ts) parts := by
  obtain ⟨parts, hf2, hfl⟩ := runGroups_ok_parts id_ (groupRuns ts) fs h
  exact ⟨parts, hfl,
    hf2.imp (fun g p hR => processGroup_ok_shape id_ g p hR)⟩

/-- Claim C2 witness: the raw tags of sign II.50 resolve to one fixed
field for the traffic_sign run and one text field for the maxspeed run. -/
theorem C2_witness :
    ∃ parts : List (List Field),
      [Field.fixed "traffic_sign" "IT:II.50[\x7bmaxspeed\x7d]" true ";"
         ("^" ++ COUNTRY_PREFIX),
       Field.text "Maxspeed" "maxspeed"] = parts.flatten ∧
      List.Forall₂ (fun g p => GroupShape (keyOf (g.headD "")) g p)
        (groupRuns ["traffic_sign=\x7bid\x7d[\x7b\x7bmaxspeed\x7d\x7d]", "maxspeed=*"]) parts :=
  C2_theorem "II.50" ["traffic_sign=\x7bid\x7d[\x7b\x7bmaxspeed\x7d\x7d]", "maxspeed=*"]
    [Field.fixed "traffic_sign" "IT:II.50[\x7bmaxspeed\x7d]" true ";"
       ("^" ++ COUNTRY_PREFIX),
     Field.text "Maxspeed" "maxspeed"] rfl

/-- Claim C5: every emitted FixedField carries the prefix-match filter
`^IT:`, and its merge separator is the semicolon except when the key is
`traffic_sign` and the substituted value starts with `IT:M` (the
supplementary-sign marker), in which case it is the comma. -/
theorem C5_theorem (id_ : String) (ts : List String) (fs : List Field)
    (h : tagsRun id_ ts = .ok fs) :
    ∀ k v tpl aw ars, Field.fixed k v tpl aw ars ∈ fs →
      ars = "^" ++ COUNTRY_PREFIX ∧
      aw = if k = "traffic_sign" && pyStartsWith v (COUNTRY_PREFIX ++ "M")
           then "," else ";" := by
  obtain ⟨parts, hf2, hfl⟩ := runGroups_ok_parts id_ (groupRuns ts) fs h
  intro k v tpl aw ars hmem
  rw [hfl] at hmem
  obtain ⟨p, hp, hmp⟩ := List.mem_flatten.mp hmem
  obtain ⟨g, _, hR⟩ := forall₂_mem_right hf2 p hp
  exact processGroup_fixed_attrs id_ g p hR k v tpl aw ars hmp

/-- Claim C5 witness: the supplementary sign MII.1 yields a comma-joined
fixed field, the main sign II.46 a semicolon-joined one, both filtered on
`^IT:`. -/
theorem C5_witness :
    (("^" ++ COUNTRY_PREFIX : String) = "^" ++ COUNTRY_PREFIX ∧
      ("," : String) =
        if ("traffic_sign" : String) = "traffic_sign" &&
            pyStartsWith "IT:MII.1[\x7bnosave:distance\x7d]" (COUNTRY_PREFIX ++ "M")
        then "," else ";") ∧
    (("^" ++ COUNTRY_PREFIX : String) = "^" ++ COUNTRY_PREFIX ∧
      (";" : String) =
        if ("vehicle" : String) = "traffic_sign" &&
            pyStartsWith "no" (COUNTRY_PREFIX ++ "M")
        then "," else ";") :=
  ⟨ C5_theorem "MII.1" ["traffic_sign=\x7bid\x7d[\x7b\x7bnosave:distance\x7d\x7d]"]
      [Field.text "Distance" "nosave:distance",
       Field.fixed "traffic_sign" "IT:MII.1[\x7bnosave:distance\x7d]" true ","
         ("^" ++ COUNTRY_PREFIX)] rfl
      "traffic_sign" "IT:MII.1[\x7bnosave:distance\x7d]" true ","
      ("^" ++ COUNTRY_PREFIX) (by decide),
   C5_theorem "II.46" ["traffic_sign=\x7bid\x7d", "vehicle=no"]
      [Field.fixed "traffic_sign" "IT:II.46" false ";" ("^" ++ COUNTRY_PREFIX),
       Field.fixed "vehicle" "no" false ";" ("^" ++ COUNTRY_PREFIX)] rfl
      "vehicle" "no" false ";" ("^" ++ COUNTRY_PREFIX) (by decide)⟩

end Josm

namespace Josm

theorem tagsRun_ok_good (id_ : String) (ts : List String) (fs : List Field)
    (h : tagsRun id_ ts = .ok fs) :
    ∀ t ∈ ts, ∃ ft, formatId t (COUNTRY_PREFIX ++ id_) = some ft ∧
      '=' ∈ ft.data := by
  intro t ht
  apply runGroups_ok_good id_ (groupRuns ts) fs h
  rw [groupRuns_flatten]
  exact ht

theorem tagsRun_malformed (id_ : String) (ts : List String)
    (hfmt : ∀ t ∈ ts, (formatId t (COUNTRY_PREFIX ++ id_)).isSome)
    (hbad : ∃ t ∈ ts, ∃ ft,
      formatId t (COUNTRY_PREFIX ++ id_) = some ft ∧ '=' ∉ ft.data) :
    ∃ gt, tagsRun id_ ts = .error (.malformed id_ gt) ∧
      ∃ ftm ∈ gt, '=' ∉ ftm.data := by
  apply runGroups_malformed id_ (groupRuns ts) (groupRuns_ne_nil ts)
  · rw [groupRuns_flatten]
    exact hfmt
  · rw [groupRuns_flatten]
    exact hbad

theorem buildItems_ok_good (records : List SignRecord)
    (out : List PresetItem) (h : buildItems records = .ok out) :
    ∀ r ∈ records, ∀ rid url, r.id = some rid → ¬r.urls.isEmpty →
      r.filename = some url →
      ∀ t ∈ sourceFor (presetKey rid) r.tags, ∃ ft,
        formatId t (COUNTRY_PREFIX ++ presetKey rid) = some ft ∧
        '=' ∈ ft.data := by
  induction records generalizing out with
  | nil => intro r hr; simp at hr
  | cons r0 rest ih =>
    intro r hr rid url hid hurls hfn t ht
    simp only [buildItems] at h
    cases hb : buildItem r0 with
    | error e => rw [hb] at h; simp at h
    | ok oit =>
      rw [hb] at h
      rcases List.mem_cons.mp hr with h1 | h2
      · subst h1
        simp only [buildItem, hid] at hb
        rw [if_neg hurls] at hb
        rw [hfn] at hb
        cases hrun : tagsRun (presetKey rid) (sourceFor (presetKey rid) r.tags) with
        | error e => rw [hrun] at hb; simp [Except.map] at hb
        | ok fs => exact tagsRun_ok_good _ _ _ hrun t ht
      · cases oit with
        | none => exact ih out h r h2 rid url hid hurls hfn t ht
        | some it =>
          cases hrest : buildItems rest with
          | error e => rw [hrest] at h; simp [Except.map] at h
          | ok outr => exact ih outr hrest r h2 rid url hid hurls hfn t ht

end Josm

namespace Josm

/-- Claim C4: if every member of the tag source formats cleanly but some
member's templated string has no `=` separator, resolution fails fatally:
the run stops with the sign id and the offending formatted group reported,
and a preset document only ever comes out of `buildItems` when every
processed record's source resolves with every templated member carrying
`=` — no partial document survives a malformed group. -/
theorem C4_theorem (id_ : String) (ts : List String)
    (hfmt : ∀ t ∈ ts, (formatId t (COUNTRY_PREFIX ++ id_)).isSome)
    (hbad : ∃ t ∈ ts, ∃ ft,
      formatId t (COUNTRY_PREFIX ++ id_) = some ft ∧ '=' ∉ ft.data) :
    (∃ gt, tagsRun id_ ts = .error (.malformed id_ gt) ∧
      ∃ ftm ∈ gt, '=' ∉ ftm.data) ∧
    (∀ (records : List SignRecord) (out : List PresetItem),
      buildItems records = .ok out →
      ∀ r ∈ records, ∀ rid url, r.id = some rid → ¬r.urls.isEmpty →
        r.filename = some url →
        ∀ t ∈ sourceFor (presetKey rid) r.tags, ∃ ft,
          formatId t (COUNTRY_PREFIX ++ presetKey rid) = some ft ∧
          '=' ∈ ft.data) :=
  ⟨tagsRun_malformed id_ ts hfmt hbad,
   fun records out h => buildItems_ok_good records out h⟩

/-- Claim C4 witness: the tag source with the single member `maxspeed`
(no separator) aborts resolution for sign `X` with the offending group
reported. -/
theorem C4_witness :
    ∃ gt, tagsRun "X" ["maxspeed"] = .error (.malformed "X" gt) ∧
      ∃ ftm ∈ gt, '=' ∉ ftm.data :=
  ( C4_theorem "X" ["maxspeed"] (by decide)
    ⟨"maxspeed", by decide, "maxspeed", by decide, by decide⟩).1

/-- Claim C9: resolution is deterministic and effect-free apart from
appending to the element: running the resolver twice on the same
(signId, tagSource) pair against any two prior child lists leaves the
prior children untouched and appends the identical field sequence, which
equals the pure resolution result. -/
theorem C9_theorem (id_ : String) (ts : List String)
    (e1 e2 fs1 fs2 : List Field)
    (h1 : tagsAppend e1 id_ ts = .ok fs1)
    (h2 : tagsAppend e2 id_ ts = .ok fs2) :
    fs1.take e1.length = e1 ∧ fs2.take e2.length = e2 ∧
    fs1.drop e1.length = fs2.drop e2.length ∧
    tagsAppend e1 id_ ts = (tagsRun id_ ts).map (fun fs => e1 ++ fs) := by
  have ha1 : tagsAppend e1 id_ ts = (tagsRun id_ ts).map (fun fs => e1 ++ fs) :=
    runGroupsAcc_eq id_ (groupRuns ts) e1
  have ha2 : tagsAppend e2 id_ ts = (tagsRun id_ ts).map (fun fs => e2 ++ fs) :=
    runGroupsAcc_eq id_ (groupRuns ts) e2
  rw [ha1] at h1
  rw [ha2] at h2
  cases hrun : tagsRun id_ ts with
  | error e => rw [hrun] at h1; simp [Except.map] at h1
  | ok fs0 =>
    rw [hrun] at h1 h2
    simp only [Except.map, Except.ok.injEq] at h1 h2
    rw [← h1, ← h2]
    rw [hrun] at ha1
    refine ⟨List.take_left e1 fs0, List.take_left e2 fs0, ?_, ha1⟩
    rw [List.drop_left, List.drop_left]

/-- Claim C9 witness: resolving sign II.46 against two different prior
child lists preserves them and appends the same fields. -/
theorem C9_witness :
    ([Field.fixed "traffic_sign" "IT:II.46" false ";" ("^" ++ COUNTRY_PREFIX),
      Field.fixed "vehicle" "no" false ";" ("^" ++ COUNTRY_PREFIX)].take 0
        = ([] : List Field)) ∧
    ([Field.text "Prior" "prior",
      Field.fixed "traffic_sign" "IT:II.46" false ";" ("^" ++ COUNTRY_PREFIX),
      Field.fixed "vehicle" "no" false ";" ("^" ++ COUNTRY_PREFIX)].take 1
        = [Field.text "Prior" "prior"]) ∧
    ([Field.fixed "traffic_sign" "IT:II.46" false ";" ("^" ++ COUNTRY_PREFIX),
      Field.fixed "vehicle" "no" false ";" ("^" ++ COUNTRY_PREFIX)].drop 0
      = [Field.text "Prior" "prior",
         Field.fixed "traffic_sign" "IT:II.46" false ";" ("^" ++ COUNTRY_PREFIX),
         Field.fixed "vehicle" "no" false ";" ("^" ++ COUNTRY_PREFIX)].drop 1) ∧
    tagsAppend [] "II.46" ["traffic_sign=\x7bid\x7d", "vehicle=no"]
      = (tagsRun "II.46" ["traffic_sign=\x7bid\x7d", "vehicle=no"]).map
          (fun fs => [] ++ fs) :=
  C9_theorem "II.46" ["traffic_sign=\x7bid\x7d", "vehicle=no"]
    [] [Field.text "Prior" "prior"]
    [Field.fixed "traffic_sign" "IT:II.46" false ";" ("^" ++ COUNTRY_PREFIX),
     Field.fixed "vehicle" "no" false ";" ("^" ++ COUNTRY_PREFIX)]
    [Field.text "Prior" "prior",
     Field.fixed "traffic_sign" "IT:II.46" false ";" ("^" ++ COUNTRY_PREFIX),
     Field.fixed "vehicle" "no" false ";" ("^" ++ COUNTRY_PREFIX)]
    rfl rfl

end Josm

namespace Josm

/-- Claim C3 counterexample: a record with an id and a nonempty url list
but no locally cached filename is excluded from the preset items and from
both style lookup tables — the raw-URL fallback claimed by the spec does
not exist (it is commented out in the source), so more than just
missing-id or empty-urls records are excluded. -/
theorem C3_counterexample :
    noFileRecord.id ≠ none ∧
    noFileRecord.urls ≠ [] ∧
    buildItems [noFileRecord] = .ok [] ∧
    dictGet? (styleTables [noFileRecord]).1 "II.999b" = none ∧
    (styleTables [noFileRecord]).2 = [] :=
  ⟨by decide, by decide, rfl, rfl, rfl⟩

theorem tablesStep_noop (r : SignRecord)
    (h : r.id = none ∨ r.urls.isEmpty = true ∨ r.filename = none ∨
      r.filename = some "") :
    ∀ tabs, tablesStep tabs r = tabs := by
  intro tabs
  simp only [tablesStep]
  cases hid : r.id with
  | none => rfl
  | some id_ =>
    dsimp only
    by_cases hurls : r.urls.isEmpty
    · rw [if_pos hurls]
    · rw [if_neg hurls]
      rcases h with h | h | h | h
      · rw [hid] at h; simp at h
      · exact absurd h hurls
      · rw [h]
      · rw [h]
        dsimp only
        rw [if_pos rfl]

theorem styleTables_excluded (r : SignRecord)
    (h : r.id = none ∨ r.urls.isEmpty = true ∨ r.filename = none ∨
      r.filename = some "")
    (pre post : List SignRecord) :
    styleTables (pre ++ r :: post) = styleTables (pre ++ post) := by
  unfold styleTables
  have hfold : ∀ init : List (String × String) × List (String × ℚ),
      (pre ++ r :: post).foldl tablesStep init
        = (pre ++ post).foldl tablesStep init := by
    intro init
    rw [List.foldl_append, List.foldl_append, List.foldl_cons,
      tablesStep_noop r h]
  rw [hfold]

/-- Claim C3 (amended): an item is emitted exactly for records carrying an
id, a nonempty url list AND a cached filename, and its icon reference is
always that cached filename; records missing any of the three are
excluded from the preset items, and likewise the style pipeline: a record
with a missing id, empty urls, or no (truthy) cached filename contributes
nothing to the lookup tables at any position in the catalogue. -/
theorem C3_theorem (r : SignRecord) :
    (∀ it, buildItem r = .ok (some it) →
      ∃ rid url, r.id = some rid ∧ ¬r.urls.isEmpty ∧ r.filename = some url ∧
        it.icon = url ∧ it.name = presetKey rid) ∧
    (buildItem r = .ok none ↔
      r.id = none ∨ r.urls.isEmpty = true ∨ r.filename = none) ∧
    (∀ tabs, (r.id = none ∨ r.urls.isEmpty = true ∨ r.filename = none ∨
        r.filename = some "") →
      tablesStep tabs r = tabs) ∧
    ((r.id = none ∨ r.urls.isEmpty = true ∨ r.filename = none ∨
        r.filename = some "") →
      ∀ pre post : List SignRecord,
        styleTables (pre ++ r :: post) = styleTables (pre ++ post)) := by
  refine ⟨?_, ?_, fun tabs h => tablesStep_noop r h tabs,
    fun h pre post => styleTables_excluded r h pre post⟩
  · intro it h
    simp only [buildItem] at h
    cases hid : r.id with
    | none => rw [hid] at h; simp at h
    | some rid =>
      rw [hid] at h
      dsimp only at h
      by_cases hurls : r.urls.isEmpty
      · rw [if_pos hurls] at h; simp at h
      · rw [if_neg hurls] at h
        cases hfn : r.filename with
        | none => rw [hfn] at h; simp at h
        | some url =>
          rw [hfn] at h
          dsimp only at h
          cases hrun : tagsRun (presetKey rid) (sourceFor (presetKey rid) r.tags) with
          | error e => rw [hrun] at h; simp [Except.map] at h
          | ok fs =>
            rw [hrun] at h
            simp only [Except.map, Except.ok.injEq, Option.some.injEq] at h
            exact ⟨rid, url, rfl, hurls, rfl, by rw [← h], by rw [← h]⟩
  · constructor
    · intro h
      simp only [buildItem] at h
      cases hid : r.id with
      | none => exact Or.inl rfl
      | some rid =>
        rw [hid] at h
        dsimp only at h
        by_cases hurls : r.urls.isEmpty
        · exact Or.inr (Or.inl hurls)
        · rw [if_neg hurls] at h
          cases hfn : r.filename with
          | none => exact Or.inr (Or.inr rfl)
          | some url =>
            rw [hfn] at h
            dsimp only at h
            exfalso
            cases hrun : tagsRun (presetKey rid)
                (sourceFor (presetKey rid) r.tags) with
            | error e => rw [hrun] at h; simp [Except.map] at h
            | ok fs => rw [hrun] at h; simp [Except.map] at h
    · intro h
      simp only [buildItem]
      rcases h with h | h | h
      · rw [h]
      · cases hid : r.id with
        | none => rfl
        | some rid =>
          dsimp only
          rw [if_pos h]
      · cases hid : r.id with
        | none => rfl
        | some rid =>
          dsimp only
          by_cases hurls : r.urls.isEmpty
          · rw [if_pos hurls]
          · rw [if_neg hurls, h]

/-- Claim C3 witness: a record with id, urls and a cached filename yields
an item whose icon is exactly that filename and whose name is the
sanitized id; the record without a cached filename is a no-op for the
style lookup tables, at a nonempty prior state and in the middle of a
catalogue. -/
theorem C3_witness :
    (∃ rid url, fileRecord.id = some rid ∧ ¬fileRecord.urls.isEmpty ∧
      fileRecord.filename = some url ∧
      (PresetItem.mk "X.1" "X.1.svg"
        [Field.fixed "traffic_sign" "IT:X.1" false ";"
          ("^" ++ COUNTRY_PREFIX)]).icon = url ∧
      (PresetItem.mk "X.1" "X.1.svg"
        [Field.fixed "traffic_sign" "IT:X.1" false ";"
          ("^" ++ COUNTRY_PREFIX)]).name = presetKey rid) ∧
    tablesStep ([("K", "svgs/k.svg")], [("K", 1)]) noFileRecord
      = ([("K", "svgs/k.svg")], [("K", 1)]) ∧
    styleTables ([fileRecord] ++ noFileRecord :: [fileRecord])
      = styleTables ([fileRecord] ++ [fileRecord]) :=
  ⟨(C3_theorem fileRecord).1
      (PresetItem.mk "X.1" "X.1.svg"
        [Field.fixed "traffic_sign" "IT:X.1" false ";" ("^" ++ COUNTRY_PREFIX)])
      rfl,
   (C3_theorem noFileRecord).2.2.1 ([("K", "svgs/k.svg")], [("K", 1)])
      (Or.inr (Or.inr (Or.inl rfl))),
   (C3_theorem noFileRecord).2.2.2 (Or.inr (Or.inr (Or.inl rfl)))
      [fileRecord] [fileRecord]⟩

end Josm

namespace Josm

/-- Claim C7: a section label of the form `Primary (Alternate)` (primary
part free of parentheses and newlines and not ending in whitespace,
alternate part free of newlines) yields the primary name `Primary` (the
`it.name` attribute) and the alternate name `Alternate` (the `name`
attribute); a label containing no parenthesis at all yields the whole
label as primary name with no alternate. -/
theorem C7_theorem (p a s : String)
    (hp1 : '(' ∉ p.data) (hp2 : '\n' ∉ p.data)
    (hp3 : ∀ c, p.data.getLast? = some c → isPyWs c = false)
    (ha2 : '\n' ∉ a.data) (hs : '(' ∉ s.data) :
    sectionAttrs (p ++ " (" ++ a ++ ")") = (p, some a) ∧
    sectionAttrs s = (s, none) := by
  constructor
  · unfold sectionAttrs sectionSplit
    have hsep : (" (" : String).data = [' ', '('] := rfl
    have hcl : (")" : String).data = [')'] := rfl
    have hdata : (p ++ " (" ++ a ++ ")").data
        = p.data ++ ' ' :: '(' :: (a.data ++ [')']) := by
      rw [String.data_append, String.data_append, String.data_append,
        hsep, hcl]
      simp
    rw [hdata]
    rw [scanLabel_through a.data ha2 p.data [] hp1 hp2 hp3]
    rfl
  · unfold sectionAttrs sectionSplit
    rw [scanLabel_none s.data hs []]

/-- Claim C7 witness: the label `Segnali di pericolo (Warning signs)`
splits into primary `Segnali di pericolo` and alternate `Warning signs`;
the label `Altro` stays whole with no alternate. -/
theorem C7_witness :
    sectionAttrs ("Segnali di pericolo" ++ " (" ++ "Warning signs" ++ ")")
      = ("Segnali di pericolo", some "Warning signs") ∧
    sectionAttrs "Altro" = ("Altro", none) :=
  C7_theorem "Segnali di pericolo" "Warning signs" "Altro"
    (by decide) (by decide)
    (fun c hc => by
      have hlast : ("Segnali di pericolo" : String).data.getLast?
          = some 'o' := rfl
      rw [hlast] at hc
      rw [← Option.some.inj hc]
      rfl)
    (by decide) (by decide)

end Josm
